import Mathlib

/-!
# PS2-MCA-converter: ECC tables, page ECC and the stream converter

A shallow embedding of `src/main.c`.

* Bytes (`uint8_t`) are natural numbers; every assignment to a `uint8_t` object that follows an
  arithmetic expression is followed by `% 256`.
* The global arrays `parity_table[256]` and `column_parity_masks[256]` are the two lists of a
  `Tables` value; an array read `a[k]` is `a.getD k 0`, an array write `a[k] = v` is `a.set k v`.
* A counted `for` loop over `0 .. n-1` without early exit is a left fold over `List.range n`.
* The file descriptors live in a `World`: the input file with its offset, the bytes written to
  the output so far, and scripts that decide how the next `read`, `write` and `lseek` calls
  behave (interrupted, failing, short, or complete).
* `read_file` and `write_file` contain `while` loops that need not terminate; they take a fuel
  argument bounding the number of loop iterations and return `none` when it runs out.
* Diagnostic output (`fprintf`) is not modelled.
-/

namespace PS2MCA

/-! ## Constants -/

def ECC_SIZE : Nat := 16
def PAGES_PER_BLOCK : Nat := 16
def BYTES_PER_PAGE : Nat := 512
def BLOCKS_PER_CARD : Nat := 1024
def EXPECTED_NON_ECC_MEMCARD_SIZE : Nat := BLOCKS_PER_CARD * PAGES_PER_BLOCK * BYTES_PER_PAGE
def EXPECTED_MEMCARD_SIZE : Nat :=
  EXPECTED_NON_ECC_MEMCARD_SIZE + BLOCKS_PER_CARD * PAGES_PER_BLOCK * ECC_SIZE
def ECC_BYTES_LENGTH : Nat := 128

/-! ## Parity and the lookup tables -/

/-- Source `parity`: folds the byte onto itself and returns bit 0. The parameter is a `uint8_t`,
so the argument is reduced modulo 256 on entry. -/
def parity (byte : Nat) : Nat :=
  let byte := byte % 256
  let byte := (byte ^^^ (byte >>> 1)) % 256
  let byte := (byte ^^^ (byte >>> 2)) % 256
  let byte := (byte ^^^ (byte >>> 4)) % 256
  byte &&& 1

/-- The two global lookup arrays. -/
structure Tables where
  parity_table : List Nat
  column_parity_masks : List Nat
deriving DecidableEq

/-- The local array `cpmasks` of `make_ecc_tables`. -/
def cpmasks : List Nat := [0x55, 0x33, 0x0F, 0x00, 0xAA, 0xCC, 0xF0]

/-- First loop of `make_ecc_tables`: `parity_table[byte] = parity(byte)` for `byte` in 0..255. -/
def fill_parity (parity_table : List Nat) : List Nat :=
  (List.range 256).foldl (fun tbl byte => tbl.set byte (parity byte)) parity_table

/-- Body of the innermost loop of `make_ecc_tables`; the state is the local `mask` together with
the array `column_parity_masks`, which is written on every iteration. -/
def mask_step (parity_table : List Nat) (byte : Nat) (st : Nat × List Nat) (i : Nat) :
    Nat × List Nat :=
  let mask := (st.1 ||| (parity_table.getD (byte &&& cpmasks.getD i 0) 0 <<< i)) % 256
  (mask, st.2.set byte mask)

/-- Second loop of `make_ecc_tables`: for every `byte`, `mask` starts at 0 and the seven mask
bits are accumulated. -/
def fill_masks (parity_table : List Nat) (column_parity_masks : List Nat) : List Nat :=
  (List.range 256).foldl
    (fun tbl byte => ((List.range 7).foldl (mask_step parity_table byte) (0, tbl)).2)
    column_parity_masks

/-- Source `make_ecc_tables`, as a transformer of the global tables. -/
def make_ecc_tables (t : Tables) : Tables :=
  let parity_table := fill_parity t.parity_table
  { parity_table := parity_table
    column_parity_masks := fill_masks parity_table t.column_parity_masks }

/-- The tables at program start: C zero-initialises objects of static storage duration. -/
def initial_tables : Tables := ⟨List.replicate 256 0, List.replicate 256 0⟩

/-! ## ECC of one page -/

/-- The three accumulators declared at the top of the outer loop body of `calculate_ecc`. -/
structure EccAcc where
  column_parity : Nat
  line_parity_0 : Nat
  line_parity_1 : Nat
deriving DecidableEq

/-- Body of the inner loop of `calculate_ecc` (source lines 94-99).

Line 95, `uint8_t column_parity = column_parity ^ column_parity_masks[byte];`, declares a new
object in the scope of the loop body: the name in its initialiser already denotes that new object,
and the object dies at the end of the iteration. It is bound here as `_column_parity`, computed
from the indeterminate start value `indet`, and is never assigned to the accumulator.

`i` is an `unsigned int`, so `~i` is `2^32 - 1 - i`; the results are stored into `uint8_t`. -/
def ecc_byte_step (t : Tables) (data : List Nat) (i : Nat) (indet : Nat) (s : EccAcc)
    (pos : Nat) : EccAcc :=
  let byte := data.getD (ECC_BYTES_LENGTH * i + pos) 0
  let _column_parity := (indet ^^^ t.column_parity_masks.getD byte 0) % 256
  if t.parity_table.getD byte 0 ≠ 0 then
    { s with
      line_parity_0 := (s.line_parity_0 ^^^ (2 ^ 32 - 1 - i)) % 256
      line_parity_1 := (s.line_parity_1 ^^^ i) % 256 }
  else s

/-- The inner loop of `calculate_ecc` for quarter `i`, started from the three seeds. -/
def ecc_quarter_acc (t : Tables) (data : List Nat) (i : Nat) : EccAcc :=
  (List.range ECC_BYTES_LENGTH).foldl (ecc_byte_step t data i 0) ⟨0x77, 0x7F, 0x7F⟩

/-- Body of the outer loop of `calculate_ecc`: the three stores at `ecc_offset = 3 * i`. -/
def ecc_quarter (t : Tables) (data : List Nat) (ecc : List Nat) (i : Nat) : List Nat :=
  let s := ecc_quarter_acc t data i
  let ecc_offset := 3 * i
  ((ecc.set ecc_offset s.column_parity).set (ecc_offset + 1)
    (s.line_parity_0 &&& 0x7F)).set (ecc_offset + 2) s.line_parity_1

/-- Source `calculate_ecc`: returns the contents of the buffer `ecc` after the call. -/
def calculate_ecc (t : Tables) (data : List Nat) (ecc : List Nat) : List Nat :=
  (List.range 4).foldl (ecc_quarter t data) ecc

/-- The page `data` with bit `bit` of the byte at offset `off` inverted. -/
def flip_bit (data : List Nat) (off bit : Nat) : List Nat :=
  data.set off (data.getD off 0 ^^^ (1 <<< bit))

/-- A page: 512 entries, each a byte. -/
def is_page (data : List Nat) : Prop :=
  data.length = BYTES_PER_PAGE ∧ ∀ b ∈ data, b < 256

/-! ## The environment of the stream converter -/

/-- How one `read`, `write` call behaves. -/
inductive CallEvent where
  /-- The call returns -1 with `errno = EINTR`. -/
  | eintr
  /-- The call returns -1 with another `errno`. -/
  | error
  /-- The call transfers at most `n` bytes. -/
  | short (n : Nat)
deriving DecidableEq

/-- The state behind `in_fd` and `out_fd`. A call whose script is exhausted completes in full. -/
structure World where
  /-- Contents of the file behind `in_fd`. -/
  input : List Nat
  /-- File offset of `in_fd`. -/
  in_pos : Nat
  /-- The bytes written to `out_fd` so far. -/
  output : List Nat
  /-- Behaviour of the coming `read` calls. -/
  read_script : List CallEvent
  /-- Behaviour of the coming `write` calls. -/
  write_script : List CallEvent
  /-- Behaviour of the coming `lseek` calls: `true` is a call that returns -1. -/
  seek_script : List Bool
  /-- Number of `read` calls issued. -/
  reads : Nat
  /-- Number of `write` calls issued. -/
  writes : Nat
deriving DecidableEq

/-- Result of a `read` or `write` call. -/
inductive SysRet where
  /-- The call returned -1; `eintr` tells whether `errno` is `EINTR`. -/
  | err (eintr : Bool)
  /-- The call returned the number `n` of bytes transferred. -/
  | ok (n : Nat)
deriving DecidableEq

/-- The buffer `buf` after `chunk` has been stored at offset `off`. -/
def store_at (buf : List Nat) (off : Nat) (chunk : List Nat) : List Nat :=
  buf.take off ++ chunk ++ buf.drop (off + chunk.length)

/-- System call `read(in_fd, buf + off, count)`. -/
def sys_read (w : World) (buf : List Nat) (off count : Nat) : SysRet × List Nat × World :=
  match w.read_script with
  | [] =>
    let chunk := (w.input.drop w.in_pos).take count
    (.ok chunk.length, store_at buf off chunk,
      { w with in_pos := w.in_pos + chunk.length, reads := w.reads + 1 })
  | .eintr :: rest => (.err true, buf, { w with read_script := rest, reads := w.reads + 1 })
  | .error :: rest => (.err false, buf, { w with read_script := rest, reads := w.reads + 1 })
  | .short n :: rest =>
    let chunk := (w.input.drop w.in_pos).take (min n count)
    (.ok chunk.length, store_at buf off chunk,
      { w with in_pos := w.in_pos + chunk.length, read_script := rest, reads := w.reads + 1 })

/-- System call `write(out_fd, bytes, bytes.length)`. -/
def sys_write (w : World) (bytes : List Nat) : SysRet × World :=
  match w.write_script with
  | [] => (.ok bytes.length, { w with output := w.output ++ bytes, writes := w.writes + 1 })
  | .eintr :: rest => (.err true, { w with write_script := rest, writes := w.writes + 1 })
  | .error :: rest => (.err false, { w with write_script := rest, writes := w.writes + 1 })
  | .short n :: rest =>
    let chunk := bytes.take n
    (.ok chunk.length,
      { w with output := w.output ++ chunk, write_script := rest, writes := w.writes + 1 })

/-- System call `lseek(in_fd, 0, SEEK_END)`: `none` is the return value -1. -/
def sys_lseek_end (w : World) : Option Nat × World :=
  match w.seek_script with
  | true :: rest => (none, { w with seek_script := rest })
  | false :: rest => (some w.input.length, { w with in_pos := w.input.length, seek_script := rest })
  | [] => (some w.input.length, { w with in_pos := w.input.length })

/-- System call `lseek(in_fd, 0, SEEK_SET)`: `none` is the return value -1. -/
def sys_lseek_set (w : World) : Option Nat × World :=
  match w.seek_script with
  | true :: rest => (none, { w with seek_script := rest })
  | false :: rest => (some 0, { w with in_pos := 0, seek_script := rest })
  | [] => (some 0, { w with in_pos := 0 })

/-! ## The stream converter -/

/-- The `while` loop of `read_file`, with `fuel` bounding the number of times the loop condition
is evaluated. Returns the status, the buffer and the world. -/
def read_file_loop : Nat → World → List Nat → Nat → Nat → Option (Nat × List Nat × World)
  | 0, _, _, _, _ => none
  | fuel + 1, w, buf, len, total_read =>
    if total_read = len then some (0, buf, w)
    else
      match sys_read w buf total_read (len - total_read) with
      | (.err eintr, buf, w) =>
        if !eintr then some (1, buf, w) else read_file_loop fuel w buf len total_read
      | (.ok num_read, buf, w) => read_file_loop fuel w buf len (total_read + num_read)

/-- Source `read_file`. -/
def read_file (fuel : Nat) (w : World) (buf : List Nat) (len : Nat) :
    Option (Nat × List Nat × World) :=
  read_file_loop fuel w buf len 0

/-- The `while` loop of `write_file`, with `fuel` as in `read_file_loop`. -/
def write_file_loop : Nat → World → List Nat → Nat → Nat → Option (Nat × World)
  | 0, _, _, _, _ => none
  | fuel + 1, w, buf, len, total_written =>
    if total_written = len then some (0, w)
    else
      match sys_write w ((buf.drop total_written).take (len - total_written)) with
      | (.err eintr, w) =>
        if !eintr then some (1, w) else write_file_loop fuel w buf len total_written
      | (.ok num_written, w) => write_file_loop fuel w buf len (total_written + num_written)

/-- Source `write_file`. -/
def write_file (fuel : Nat) (w : World) (buf : List Nat) (len : Nat) : Option (Nat × World) :=
  write_file_loop fuel w buf len 0

/-- Source `get_file_size`. -/
def get_file_size (w : World) : Nat × World :=
  match sys_lseek_end w with
  | (none, w) => (1, w)
  | (some file_size, w) =>
    match sys_lseek_set w with
    | (none, w) => (1, w)
    | (some _, w) => (file_size, w)

/-- Body of the page loop of `convert_memcard` (source lines 195-211). Returns the status (non-zero:
the function returns 1), the buffer `data` and the world. -/
def convert_page (fuel : Nat) (t : Tables) (w : World) (data : List Nat) :
    Option (Nat × List Nat × World) :=
  match read_file fuel w data BYTES_PER_PAGE with
  | none => none
  | some (r, data, w) =>
    if r ≠ 0 then some (1, data, w)
    else
      match write_file fuel w data BYTES_PER_PAGE with
      | none => none
      | some (r, w) =>
        if r ≠ 0 then some (1, data, w)
        else
          let ecc := List.replicate ECC_SIZE 0
          let ecc := calculate_ecc t data ecc
          match write_file fuel w ecc ECC_SIZE with
          | none => none
          | some (r, w) => if r ≠ 0 then some (1, data, w) else some (0, data, w)

/-- The loop over the pages of one block; the first argument is the number of iterations left,
`PAGES_PER_BLOCK - page`. -/
def page_loop (fuel : Nat) (t : Tables) : Nat → World → List Nat → Option (Nat × List Nat × World)
  | 0, w, data => some (0, data, w)
  | n + 1, w, data =>
    match convert_page fuel t w data with
    | none => none
    | some (r, data, w) => if r ≠ 0 then some (1, data, w) else page_loop fuel t n w data

/-- The loop over the blocks; the first argument is the number of iterations left,
`BLOCKS_PER_CARD - block`. -/
def block_loop (fuel : Nat) (t : Tables) : Nat → World → List Nat → Option (Nat × List Nat × World)
  | 0, w, data => some (0, data, w)
  | n + 1, w, data =>
    match page_loop fuel t PAGES_PER_BLOCK w data with
    | none => none
    | some (r, data, w) => if r ≠ 0 then some (1, data, w) else block_loop fuel t n w data

/-- Source `convert_memcard`. The tables are the global arrays at the time of the call; `fuel`
bounds each `read_file` and `write_file` loop. The local buffer `data` is not initialised in the
source; it starts here as 512 zero bytes and is overwritten by `read_file` before it is used. -/
def convert_memcard (fuel : Nat) (t : Tables) (w : World) : Option (Nat × World) :=
  match get_file_size w with
  | (file_size, w) =>
    if file_size ≠ EXPECTED_NON_ECC_MEMCARD_SIZE then some (1, w)
    else
      match block_loop fuel t BLOCKS_PER_CARD w (List.replicate BYTES_PER_PAGE 0) with
      | none => none
      | some (r, _, w) => some (r, w)

/-! ## Specification-side and proof-side definitions -/

/-- The arrays have 256 entries each. -/
def Tables.wf (t : Tables) : Prop :=
  t.parity_table.length = 256 ∧ t.column_parity_masks.length = 256

/-- Spec: XOR of all 8 bits of `b`. -/
def xor_of_bits (b : Nat) : Nat :=
  (List.range 8).foldl (fun acc k => acc ^^^ ((b >>> k) % 2)) 0

/-- Number of set bits among the low 8 bits of `b`. -/
def popcount8 (b : Nat) : Nat :=
  ((List.range 8).filter (fun k => (b >>> k) % 2 = 1)).length

/-- The value the innermost loop of `make_ecc_tables` leaves in `mask`. -/
def column_mask (parity_table : List Nat) (byte : Nat) : Nat :=
  (List.range 7).foldl
    (fun mask i => (mask ||| (parity_table.getD (byte &&& cpmasks.getD i 0) 0 <<< i)) % 256) 0

/-- Spec: the column parity of quarter `i`, the seed XORed with the mask of each byte. -/
def spec_column_parity (t : Tables) (data : List Nat) (i : Nat) : Nat :=
  (List.range ECC_BYTES_LENGTH).foldl
    (fun cp pos => cp ^^^ t.column_parity_masks.getD (data.getD (ECC_BYTES_LENGTH * i + pos) 0) 0)
    0x77

/-- The tables as `main` builds them before the conversion. -/
def ecc_tables : Tables := make_ecc_tables initial_tables

/-- No call fails with an error other than `EINTR`. -/
def World.calls_ok (w : World) : Prop :=
  CallEvent.error ∉ w.read_script ∧ CallEvent.error ∉ w.write_script ∧ true ∉ w.seek_script

/-- The world `w'` is reached from `w` by system calls: same input file, and what is left of each
script is a suffix of what there was. -/
def World.follows (w' w : World) : Prop :=
  w'.input = w.input ∧ w'.read_script <:+ w.read_script ∧
  w'.write_script <:+ w.write_script ∧ w'.seek_script <:+ w.seek_script

/-- The page of the input file that starts at byte offset `pos`. -/
def page_at (input : List Nat) (pos : Nat) : List Nat :=
  (input.drop pos).take BYTES_PER_PAGE

/-- The output record of the page at byte offset `pos`: the page, then its ECC buffer. -/
def record_at (t : Tables) (input : List Nat) (pos : Nat) : List Nat :=
  page_at input pos ++ calculate_ecc t (page_at input pos) (List.replicate ECC_SIZE 0)

/-- The output records of `n` consecutive pages, the first at byte offset `pos`. -/
def records_from (t : Tables) (input : List Nat) : Nat → Nat → List Nat
  | _, 0 => []
  | pos, n + 1 => record_at t input pos ++ records_from t input (pos + BYTES_PER_PAGE) n

/-- The fuel covers every loop of a run from `w`. -/
def World.fuel_ok (w : World) (fuel : Nat) : Prop :=
  w.read_script.length + w.write_script.length + 2 ≤ fuel

instance (w : World) : Decidable w.calls_ok :=
  inferInstanceAs (Decidable (_ ∧ _ ∧ _))

instance (w : World) (fuel : Nat) : Decidable (w.fuel_ok fuel) :=
  inferInstanceAs (Decidable (_ ≤ _))

/-- A card image of 8,388,608 zero bytes behind a descriptor whose first `read` is interrupted,
whose second `read` is short, and whose first `write` is short. -/
def example_world : World :=
  { input := List.replicate 8388608 0
    in_pos := 7
    output := []
    read_script := [.eintr, .short 100]
    write_script := [.short 3, .eintr]
    seek_script := [false]
    reads := 0
    writes := 0 }

/-- An image that is one byte short. -/
def short_world : World :=
  { example_world with input := List.replicate 8388607 0 }

/-- The test `if(parity_table[byte])` of `calculate_ecc` for the byte at position `pos` of
quarter `i`. -/
def odd_byte (t : Tables) (data : List Nat) (i pos : Nat) : Bool :=
  t.parity_table.getD (data.getD (ECC_BYTES_LENGTH * i + pos) 0) 0 != 0

/-- Number of bytes of quarter `i` for which the test of `calculate_ecc` succeeds. -/
def toggles (t : Tables) (data : List Nat) (i : Nat) : Nat :=
  (List.range ECC_BYTES_LENGTH).countP (odd_byte t data i)

/-- Number of bytes of quarter `i` whose `parity_table` entry is 1. -/
def odd_bytes (t : Tables) (data : List Nat) (i : Nat) : Nat :=
  (List.range ECC_BYTES_LENGTH).countP
    (fun pos => t.parity_table.getD (data.getD (ECC_BYTES_LENGTH * i + pos) 0) 0 == 1)

/-- Number of set bits among the 1024 bits of quarter `i`. -/
def quarter_bits (data : List Nat) (i : Nat) : Nat :=
  ((List.range ECC_BYTES_LENGTH).map
    (fun pos => popcount8 (data.getD (ECC_BYTES_LENGTH * i + pos) 0))).sum

/-- The two values the accumulators of quarter `i` alternate between: the seeds, and the seeds
after one execution of source lines 97-98. -/
def line_state (i : Nat) (odd : Bool) : EccAcc :=
  if odd then ⟨0x77, (0x7F ^^^ (2 ^ 32 - 1 - i)) % 256, (0x7F ^^^ i) % 256⟩
  else ⟨0x77, 0x7F, 0x7F⟩

/-- A three-byte input file behind a descriptor positioned at its end; every call completes. -/
def eof_world : World :=
  { input := [1, 2, 3]
    in_pos := 3
    output := []
    read_script := []
    write_script := []
    seek_script := []
    reads := 0
    writes := 0 }

/-- The 16 bytes of the ECC buffer of an all-zero page. -/
def zero_page_ecc : List Nat :=
  [0x77, 0x7F, 0x7F, 0x77, 0x7F, 0x7F, 0x77, 0x7F, 0x7F, 0x77, 0x7F, 0x7F, 0, 0, 0, 0]

/-- What a returning `read_file` loop has done: nothing to the output, and either the buffer is
filled from the file (status 0), or the last `read` issued failed with an error other than `EINTR`
before the buffer was full (status 1). -/
def read_outcome (w : World) (buf : List Nat) (len total_read : Nat)
    (r : Nat) (buf' : List Nat) (w' : World) : Prop :=
  w'.input = w.input ∧ w'.output = w.output ∧ w'.write_script = w.write_script ∧
  w'.writes = w.writes ∧ w'.seek_script = w.seek_script ∧
  ((r = 0 ∧ buf' = buf.take total_read ++ (w.input.drop w.in_pos).take (len - total_read) ∧
      w'.in_pos = w.in_pos + (len - total_read)) ∨
   (r = 1 ∧ w.in_pos ≤ w'.in_pos ∧ w'.in_pos < w.in_pos + (len - total_read) ∧
      ∃ pre, w.read_script = pre ++ CallEvent.error :: w'.read_script ∧ CallEvent.error ∉ pre))

/-- What a returning `write_file` loop has done: nothing to the input side, and either all the
bytes are appended to the output (status 0), or the last `write` issued failed with an error other
than `EINTR` after fewer bytes than asked for had been appended (status 1). -/
def write_outcome (w : World) (buf : List Nat) (len total_written : Nat)
    (r : Nat) (w' : World) : Prop :=
  w'.input = w.input ∧ w'.in_pos = w.in_pos ∧ w'.read_script = w.read_script ∧
  w'.reads = w.reads ∧ w'.seek_script = w.seek_script ∧
  ((r = 0 ∧ w'.output = w.output ++ (buf.drop total_written).take (len - total_written)) ∨
   (r = 1 ∧ ∃ m, m < len - total_written ∧
      w'.output = w.output ++ (buf.drop total_written).take m ∧
      ∃ pre, w.write_script = pre ++ CallEvent.error :: w'.write_script ∧ CallEvent.error ∉ pre))

/-- The state in which `convert_memcard` starts page `PAGES_PER_BLOCK * b + p`: the size check
has passed, `b` blocks and then `p` pages of the next block have been converted, and the buffer
and the world are `dk` and `wk`. -/
def at_page (fuel : Nat) (t : Tables) (w : World) (b p : Nat) (dk : List Nat) (wk : World) :
    Prop :=
  ∃ db wb, block_loop fuel t b (get_file_size w).2 (List.replicate BYTES_PER_PAGE 0)
      = some (0, db, wb) ∧
    page_loop fuel t p wb db = some (0, dk, wk)

/-- A card image of 8,388,608 zero bytes behind descriptors where every `read` completes, the
first `write` transfers 100 bytes and the second `write` fails with an error other than
`EINTR`. -/
def partial_write_world : World :=
  { input := List.replicate 8388608 0
    in_pos := 7
    output := []
    read_script := []
    write_script := [.short 100, .error]
    seek_script := []
    reads := 0
    writes := 0 }

/-- The page whose first byte is 0x01 and whose other bytes are zero. -/
def one_bit_page : List Nat := 1 :: List.replicate 511 0

/-- The image whose first byte is 0xFF and whose other bytes are zero, behind the descriptors of
`example_world`. -/
def ff_world : World :=
  { example_world with input := 0xFF :: List.replicate 8388607 0 }

/-! ## Theorems -/

theorem foldl_set_range {α : Type} (f : Nat → α) :
    ∀ (n : Nat) (l : List α), n ≤ l.length →
      (List.range n).foldl (fun tbl b => tbl.set b (f b)) l = (List.range n).map f ++ l.drop n := by
  intro n
  induction n with
  | zero => intro l _; simp
  | succ n ih =>
    intro l hl
    have hn : n ≤ l.length := by omega
    rw [List.range_succ, List.foldl_append, ih l hn]
    simp only [List.foldl_cons, List.foldl_nil, List.map_append, List.map_cons, List.map_nil]
    rw [List.set_append]
    simp only [List.length_map, List.length_range, Nat.lt_irrefl, if_false, Nat.sub_self]
    have hd : List.drop n l = l[n] :: List.drop (n + 1) l := by
      rw [List.drop_eq_getElem_cons]
    rw [hd, List.set_cons_zero]
    simp

theorem fill_parity_eq (pt : List Nat) (h : pt.length = 256) :
    fill_parity pt = (List.range 256).map parity := by
  unfold fill_parity
  rw [foldl_set_range parity 256 pt (by omega)]
  simp [List.drop_eq_nil_of_le, h]

theorem mask_loop_snd (pt : List Nat) (byte : Nat) (tbl : List Nat) :
    ((List.range 7).foldl (mask_step pt byte) (0, tbl)).2 = tbl.set byte (column_mask pt byte) := by
  simp [List.range_succ, mask_step, column_mask, List.set_set]

theorem fill_masks_eq (pt cpm : List Nat) (h : cpm.length = 256) :
    fill_masks pt cpm = (List.range 256).map (column_mask pt) := by
  unfold fill_masks
  simp only [mask_loop_snd]
  rw [foldl_set_range (column_mask pt) 256 cpm (by omega)]
  simp [List.drop_eq_nil_of_le, h]

theorem make_ecc_tables_eq (t : Tables) (h : t.wf) :
    make_ecc_tables t =
      ⟨(List.range 256).map parity,
       (List.range 256).map (column_mask ((List.range 256).map parity))⟩ := by
  unfold make_ecc_tables
  simp only [fill_parity_eq _ h.1, fill_masks_eq _ _ h.2]

theorem getD_map_range (f : Nat → Nat) (n b : Nat) (h : b < n) :
    ((List.range n).map f).getD b 0 = f b := by
  simp [List.getD_eq_getElem?_getD, List.getElem?_range h]

theorem column_mask_parity (b : Nat) :
    column_mask ((List.range 256).map parity) b =
      (List.range 7).foldl
        (fun mask i => (mask ||| (parity (b &&& cpmasks.getD i 0) <<< i)) % 256) 0 := by
  have key : ∀ m, m < 256 →
      ((List.range 256).map parity).getD (b &&& m) 0 = parity (b &&& m) :=
    fun m hm => getD_map_range _ _ _ (lt_of_le_of_lt Nat.and_le_right hm)
  unfold column_mask
  apply List.foldl_ext
  intro mask i hi
  have hi7 : i < 7 := List.mem_range.mp hi
  have hm : cpmasks.getD i 0 < 256 := by
    have : ∀ i, i < 7 → cpmasks.getD i 0 < 256 := by decide
    exact this i hi7
  rw [key _ hm]

set_option maxRecDepth 100000 in
theorem parity_eq_xor_of_bits : ∀ b, b < 256 → parity b = xor_of_bits b := by decide

set_option maxRecDepth 100000 in
theorem parity_eq_one_iff : ∀ b, b < 256 → (parity b = 1 ↔ popcount8 b % 2 = 1) := by decide

set_option maxRecDepth 100000 in
theorem column_mask_bit : ∀ b, b < 256 → ∀ i, i < 7 →
    ((List.range 7).foldl
        (fun mask i => (mask ||| (parity (b &&& cpmasks.getD i 0) <<< i)) % 256) 0 >>> i) % 2
      = parity (b &&& [0x55, 0x33, 0x0F, 0x00, 0xAA, 0xCC, 0xF0].getD i 0) := by decide

/-- C3: after `make_ecc_tables`, for every byte value `b`, `parity_table[b]` is the XOR of the 8
bits of `b`, which is 1 exactly when `b` has an odd number of set bits. -/
theorem parity_table_spec (t : Tables) (ht : t.wf) (b : Nat) (hb : b < 256) :
    (make_ecc_tables t).parity_table.getD b 0 = xor_of_bits b ∧
    ((make_ecc_tables t).parity_table.getD b 0 = 1 ↔ popcount8 b % 2 = 1) := by
  rw [make_ecc_tables_eq t ht]
  simp only [getD_map_range parity 256 b hb]
  exact ⟨parity_eq_xor_of_bits b hb, parity_eq_one_iff b hb⟩

theorem parity_table_spec_witness :
    (make_ecc_tables initial_tables).parity_table.getD 0xA7 0 = xor_of_bits 0xA7 ∧
    ((make_ecc_tables initial_tables).parity_table.getD 0xA7 0 = 1 ↔ popcount8 0xA7 % 2 = 1) :=
  parity_table_spec initial_tables ⟨List.length_replicate 256 0, List.length_replicate 256 0⟩ 0xA7 (by decide)

/-- C4: after `make_ecc_tables`, for every byte value `b` and mask index `i` in 0..6, bit `i` of
`column_parity_masks[b]` equals `parity_table[b & M[i]]`. -/
theorem column_parity_masks_spec (t : Tables) (ht : t.wf) (b : Nat) (hb : b < 256)
    (i : Nat) (hi : i < 7) :
    ((make_ecc_tables t).column_parity_masks.getD b 0 >>> i) % 2 =
      (make_ecc_tables t).parity_table.getD
        (b &&& [0x55, 0x33, 0x0F, 0x00, 0xAA, 0xCC, 0xF0].getD i 0) 0 := by
  rw [make_ecc_tables_eq t ht]
  have hidx : b &&& [0x55, 0x33, 0x0F, 0x00, 0xAA, 0xCC, 0xF0].getD i 0 < 256 :=
    lt_of_le_of_lt Nat.and_le_left hb
  simp only [getD_map_range _ 256 b hb, getD_map_range parity 256 _ hidx, column_mask_parity]
  exact column_mask_bit b hb i hi

theorem column_parity_masks_spec_witness :
    ((make_ecc_tables initial_tables).column_parity_masks.getD 0xA7 0 >>> 5) % 2 =
      (make_ecc_tables initial_tables).parity_table.getD
        (0xA7 &&& [0x55, 0x33, 0x0F, 0x00, 0xAA, 0xCC, 0xF0].getD 5 0) 0 :=
  column_parity_masks_spec initial_tables ⟨List.length_replicate 256 0, List.length_replicate 256 0⟩ 0xA7 (by decide) 5 (by decide)

theorem make_ecc_tables_wf (t : Tables) (ht : t.wf) : (make_ecc_tables t).wf := by
  rw [make_ecc_tables_eq t ht]
  exact ⟨by simp, by simp⟩

/-- C10: table construction is idempotent, and its result does not depend on the prior contents
of the two arrays. -/
theorem make_ecc_tables_idempotent (t : Tables) (ht : t.wf) :
    make_ecc_tables (make_ecc_tables t) = make_ecc_tables t ∧
    ∀ t' : Tables, t'.wf → make_ecc_tables t' = make_ecc_tables t := by
  refine ⟨?_, fun t' ht' => ?_⟩
  · rw [make_ecc_tables_eq _ (make_ecc_tables_wf t ht), make_ecc_tables_eq t ht]
  · rw [make_ecc_tables_eq t' ht', make_ecc_tables_eq t ht]

theorem make_ecc_tables_idempotent_witness :
    make_ecc_tables (make_ecc_tables initial_tables) = make_ecc_tables initial_tables ∧
    ∀ t' : Tables, t'.wf → make_ecc_tables t' = make_ecc_tables initial_tables :=
  make_ecc_tables_idempotent initial_tables ⟨List.length_replicate 256 0, List.length_replicate 256 0⟩

theorem calculate_ecc_unfold (t : Tables) (data ecc : List Nat) :
    calculate_ecc t data ecc =
      ecc_quarter t data (ecc_quarter t data (ecc_quarter t data (ecc_quarter t data ecc 0) 1) 2) 3 := by
  simp [calculate_ecc, List.range_succ]

theorem ecc_quarter_length (t : Tables) (data ecc : List Nat) (i : Nat) :
    (ecc_quarter t data ecc i).length = ecc.length := by
  simp [ecc_quarter]

theorem calculate_ecc_length (t : Tables) (data ecc : List Nat) :
    (calculate_ecc t data ecc).length = ecc.length := by
  simp [calculate_ecc_unfold, ecc_quarter_length]

theorem ecc_quarter_getD_outside (t : Tables) (data ecc : List Nat) (i j : Nat)
    (h : ¬ (3 * i ≤ j ∧ j ≤ 3 * i + 2)) :
    (ecc_quarter t data ecc i).getD j 0 = ecc.getD j 0 := by
  have h0 : 3 * i ≠ j := by omega
  have h1 : 3 * i + 1 ≠ j := by omega
  have h2 : 3 * i + 2 ≠ j := by omega
  simp [ecc_quarter, List.getD_eq_getElem?_getD, List.getElem?_set, h0, h1, h2]

theorem ecc_quarter_getD_congr (t : Tables) (data data' ecc ecc' : List Nat) (i j : Nat)
    (hlen : ecc.length = ecc'.length) (hj : ecc.getD j 0 = ecc'.getD j 0)
    (h : 3 * i ≤ j ∧ j ≤ 3 * i + 2 → ecc_quarter_acc t data i = ecc_quarter_acc t data' i) :
    (ecc_quarter t data ecc i).getD j 0 = (ecc_quarter t data' ecc' i).getD j 0 := by
  by_cases hin : 3 * i ≤ j ∧ j ≤ 3 * i + 2
  · simp only [ecc_quarter, h hin, List.getD_eq_getElem?_getD, List.getElem?_set,
      List.length_set, hlen]
    simp only [List.getD_eq_getElem?_getD] at hj
    split_ifs <;> first | rfl | exact hj
  · rw [ecc_quarter_getD_outside _ _ _ _ _ hin, ecc_quarter_getD_outside _ _ _ _ _ hin, hj]

theorem calculate_ecc_getD_congr (t : Tables) (data data' ecc : List Nat) (j : Nat)
    (h : ∀ i, i < 4 → 3 * i ≤ j ∧ j ≤ 3 * i + 2 →
      ecc_quarter_acc t data i = ecc_quarter_acc t data' i) :
    (calculate_ecc t data ecc).getD j 0 = (calculate_ecc t data' ecc).getD j 0 := by
  rw [calculate_ecc_unfold, calculate_ecc_unfold]
  apply ecc_quarter_getD_congr _ _ _ _ _ _ _ (by simp [ecc_quarter_length]) _ (h 3 (by omega))
  apply ecc_quarter_getD_congr _ _ _ _ _ _ _ (by simp [ecc_quarter_length]) _ (h 2 (by omega))
  apply ecc_quarter_getD_congr _ _ _ _ _ _ _ (by simp [ecc_quarter_length]) _ (h 1 (by omega))
  exact ecc_quarter_getD_congr _ _ _ _ _ _ _ rfl rfl (h 0 (by omega))

theorem ecc_quarter_acc_congr (t : Tables) (data data' : List Nat) (i : Nat)
    (h : ∀ pos, pos < ECC_BYTES_LENGTH →
      data.getD (ECC_BYTES_LENGTH * i + pos) 0 = data'.getD (ECC_BYTES_LENGTH * i + pos) 0) :
    ecc_quarter_acc t data i = ecc_quarter_acc t data' i := by
  unfold ecc_quarter_acc
  apply List.foldl_ext
  intro s pos hpos
  simp only [ecc_byte_step, h pos (List.mem_range.mp hpos)]

theorem calculate_ecc_getD_high (t : Tables) (data ecc : List Nat) (j : Nat) (hj : 12 ≤ j) :
    (calculate_ecc t data ecc).getD j 0 = ecc.getD j 0 := by
  rw [calculate_ecc_unfold]
  rw [ecc_quarter_getD_outside _ _ _ _ _ (by omega), ecc_quarter_getD_outside _ _ _ _ _ (by omega),
    ecc_quarter_getD_outside _ _ _ _ _ (by omega), ecc_quarter_getD_outside _ _ _ _ _ (by omega)]

theorem calculate_ecc_drop (t : Tables) (data ecc : List Nat) :
    (calculate_ecc t data ecc).drop 12 = ecc.drop 12 := by
  simp [calculate_ecc_unfold, ecc_quarter, List.drop_set]

/-- C9: `calculate_ecc` keeps the size of the buffer and leaves every byte at index 12 or above
as it was, for every page and every prior content of the buffer. -/
theorem calculate_ecc_frame (t : Tables) (data ecc : List Nat) :
    (calculate_ecc t data ecc).length = ecc.length ∧
    (∀ j, 12 ≤ j → (calculate_ecc t data ecc).getD j 0 = ecc.getD j 0) ∧
    (calculate_ecc t data ecc).drop 12 = ecc.drop 12 :=
  ⟨calculate_ecc_length t data ecc, calculate_ecc_getD_high t data ecc,
    calculate_ecc_drop t data ecc⟩

theorem calculate_ecc_getD (t : Tables) (data ecc : List Nat) (h : 12 ≤ ecc.length)
    (i : Nat) (hi : i < 4) :
    (calculate_ecc t data ecc).getD (3 * i) 0 = (ecc_quarter_acc t data i).column_parity ∧
    (calculate_ecc t data ecc).getD (3 * i + 1) 0 =
      (ecc_quarter_acc t data i).line_parity_0 &&& 0x7F ∧
    (calculate_ecc t data ecc).getD (3 * i + 2) 0 = (ecc_quarter_acc t data i).line_parity_1 := by
  have h0 : 0 < ecc.length := by omega
  have h1 : 1 < ecc.length := by omega
  have h2 : 2 < ecc.length := by omega
  have h3 : 3 < ecc.length := by omega
  have h4 : 4 < ecc.length := by omega
  have h5 : 5 < ecc.length := by omega
  have h6 : 6 < ecc.length := by omega
  have h7 : 7 < ecc.length := by omega
  have h8 : 8 < ecc.length := by omega
  have h9 : 9 < ecc.length := by omega
  have h10 : 10 < ecc.length := by omega
  have h11 : 11 < ecc.length := by omega
  rw [calculate_ecc_unfold]
  interval_cases i <;>
    simp [ecc_quarter, List.getD_eq_getElem?_getD, List.getElem?_set, *]

theorem take_eq_map_getD (l : List Nat) (n : Nat) (h : n ≤ l.length) :
    l.take n = (List.range n).map (fun j => l.getD j 0) := by
  apply List.ext_getElem
  · simp [h]
  · intro j h1 h2
    have hj : j < n := by simpa using h2
    simp [List.getD_eq_getElem?_getD, List.getElem?_eq_getElem (show j < l.length by omega)]

theorem ecc_quarter_acc_zero (t : Tables) (h : t.parity_table.getD 0 0 = 0) (i : Nat) :
    ecc_quarter_acc t (List.replicate BYTES_PER_PAGE 0) i = ⟨0x77, 0x7F, 0x7F⟩ := by
  unfold ecc_quarter_acc
  apply List.foldl_fixed'
  intro pos
  have hb : (List.replicate BYTES_PER_PAGE 0).getD (ECC_BYTES_LENGTH * i + pos) 0 = 0 := by
    rw [List.getD_eq_getElem?_getD, List.getElem?_replicate]
    split <;> rfl
  simp only [ecc_byte_step, hb, h, ne_eq, not_true_eq_false, if_false]

theorem make_ecc_tables_parity_zero (t : Tables) (ht : t.wf) :
    (make_ecc_tables t).parity_table.getD 0 0 = 0 := by
  rw [make_ecc_tables_eq t ht, getD_map_range parity 256 0 (by omega)]
  decide

/-- C7: for the page of 512 zero bytes, and tables built by `make_ecc_tables`, `calculate_ecc`
stores 77 7F 7F in each of the four 3-byte groups of a 16-byte buffer. -/
theorem calculate_ecc_zero_page (t : Tables) (ht : t.wf) (ecc : List Nat)
    (hecc : ecc.length = ECC_SIZE) :
    (calculate_ecc (make_ecc_tables t) (List.replicate BYTES_PER_PAGE 0) ecc).take 12 =
      [0x77, 0x7F, 0x7F, 0x77, 0x7F, 0x7F, 0x77, 0x7F, 0x7F, 0x77, 0x7F, 0x7F] := by
  have hlen : 12 ≤ ecc.length := by rw [hecc]; decide
  have hz := make_ecc_tables_parity_zero t ht
  have key := fun i hi =>
    calculate_ecc_getD (make_ecc_tables t) (List.replicate BYTES_PER_PAGE 0) ecc hlen i hi
  simp only [ecc_quarter_acc_zero _ hz] at key
  have k0 := key 0 (by omega)
  have k1 := key 1 (by omega)
  have k2 := key 2 (by omega)
  have k3 := key 3 (by omega)
  rw [take_eq_map_getD _ 12 (by rw [calculate_ecc_length]; exact hlen)]
  simp only [List.range_succ, List.range_zero, List.nil_append, List.cons_append, List.map_cons,
    List.map_nil]
  simp only [Nat.mul_zero, Nat.mul_one, Nat.zero_add, Nat.reduceMul, Nat.reduceAdd] at k0 k1 k2 k3
  rw [k0.1, k0.2.1, k0.2.2, k1.1, k1.2.1, k1.2.2, k2.1, k2.2.1, k2.2.2, k3.1, k3.2.1, k3.2.2]
  rfl

theorem calculate_ecc_zero_page_witness :
    (calculate_ecc (make_ecc_tables initial_tables) (List.replicate BYTES_PER_PAGE 0)
        (List.replicate ECC_SIZE 0)).take 12 =
      [0x77, 0x7F, 0x7F, 0x77, 0x7F, 0x7F, 0x77, 0x7F, 0x7F, 0x77, 0x7F, 0x7F] :=
  calculate_ecc_zero_page initial_tables
    ⟨List.length_replicate 256 0, List.length_replicate 256 0⟩
    (List.replicate ECC_SIZE 0) (List.length_replicate ECC_SIZE 0)

theorem foldl_ecc_byte_step_column_parity (t : Tables) (data : List Nat) (i indet : Nat)
    (l : List Nat) : ∀ s : EccAcc,
    (l.foldl (ecc_byte_step t data i indet) s).column_parity = s.column_parity := by
  induction l with
  | nil => intro s; rfl
  | cons pos l ih =>
    intro s
    rw [List.foldl_cons, ih]
    unfold ecc_byte_step
    dsimp only
    split <;> rfl

theorem ecc_quarter_acc_column_parity (t : Tables) (data : List Nat) (i : Nat) :
    (ecc_quarter_acc t data i).column_parity = 0x77 :=
  foldl_ecc_byte_step_column_parity t data i 0 _ _

/-- C8: a page that differs from the all-zero page in one bit, at byte offset `o`, has the ECC of
the all-zero page at every index outside the group `3 * (o / 128) .. 3 * (o / 128) + 2`. -/
theorem single_bit_flip_local (t : Tables) (ecc : List Nat) (o bit : Nat)
    (_ho : o < BYTES_PER_PAGE) (_hbit : bit < 8) (j : Nat)
    (hj : ¬ (3 * (o / 128) ≤ j ∧ j ≤ 3 * (o / 128) + 2)) :
    (calculate_ecc t (flip_bit (List.replicate BYTES_PER_PAGE 0) o bit) ecc).getD j 0 =
      (calculate_ecc t (List.replicate BYTES_PER_PAGE 0) ecc).getD j 0 := by
  apply calculate_ecc_getD_congr
  intro i _ hin
  apply ecc_quarter_acc_congr
  intro pos hpos
  have hne : o ≠ ECC_BYTES_LENGTH * i + pos := by
    simp only [ECC_BYTES_LENGTH] at hpos ⊢
    omega
  simp only [flip_bit, List.getD_eq_getElem?_getD, List.getElem?_set, if_neg hne]

theorem single_bit_flip_local_witness :
    (calculate_ecc ecc_tables (flip_bit (List.replicate BYTES_PER_PAGE 0) 300 5)
        (List.replicate ECC_SIZE 0)).getD 4 0 =
      (calculate_ecc ecc_tables (List.replicate BYTES_PER_PAGE 0)
        (List.replicate ECC_SIZE 0)).getD 4 0 :=
  single_bit_flip_local ecc_tables (List.replicate ECC_SIZE 0) 300 5 (by decide) (by decide) 4
    (by decide)

/-- C5, evaluated: for the page whose first byte is 0x01 and whose other bytes are zero, the
column parity of quarter 0 is 0x70 according to the specification, and `calculate_ecc` stores
0x77, the seed, at offset 0. -/
theorem column_parity_not_accumulated :
    spec_column_parity ecc_tables (1 :: List.replicate 511 0) 0 = 0x70 ∧
    (calculate_ecc ecc_tables (1 :: List.replicate 511 0) (List.replicate ECC_SIZE 0)).getD 0 0
      = 0x77 := by
  decide!

/-- C6, evaluated: in the all-zero page, inverting bit 0 of byte 0 and inverting bit 0 of byte 1
give the same ECC, with line-parity bytes 00 7F in the first group. -/
theorem line_parity_collision :
    calculate_ecc ecc_tables (flip_bit (List.replicate BYTES_PER_PAGE 0) 0 0)
        (List.replicate ECC_SIZE 0) =
      [0x77, 0x00, 0x7F, 0x77, 0x7F, 0x7F, 0x77, 0x7F, 0x7F, 0x77, 0x7F, 0x7F, 0, 0, 0, 0] ∧
    calculate_ecc ecc_tables (flip_bit (List.replicate BYTES_PER_PAGE 0) 1 0)
        (List.replicate ECC_SIZE 0) =
      [0x77, 0x00, 0x7F, 0x77, 0x7F, 0x7F, 0x77, 0x7F, 0x7F, 0x77, 0x7F, 0x7F, 0, 0, 0, 0] := by
  decide!

theorem World.follows_refl (w : World) : w.follows w :=
  ⟨rfl, List.suffix_refl _, List.suffix_refl _, List.suffix_refl _⟩

theorem World.follows_trans {w₁ w₂ w₃ : World} (h₁ : w₃.follows w₂) (h₂ : w₂.follows w₁) :
    w₃.follows w₁ :=
  ⟨h₁.1.trans h₂.1, h₁.2.1.trans h₂.2.1, h₁.2.2.1.trans h₂.2.2.1, h₁.2.2.2.trans h₂.2.2.2⟩

theorem World.calls_ok_of_follows {w w' : World} (h : w'.follows w) (hw : w.calls_ok) : w'.calls_ok :=
  ⟨fun hm => hw.1 (h.2.1.subset hm), fun hm => hw.2.1 (h.2.2.1.subset hm),
    fun hm => hw.2.2 (h.2.2.2.subset hm)⟩

theorem take_append_take_drop {α : Type} (l : List α) (c m : Nat) (h : c ≤ m) :
    l.take c ++ (l.drop c).take (m - c) = l.take m := by
  rw [← List.take_add, Nat.add_sub_cancel' h]

theorem read_file_loop_ok : ∀ (fuel : Nat) (w : World) (buf : List Nat) (len total_read : Nat),
    CallEvent.error ∉ w.read_script → w.read_script.length + 2 ≤ fuel →
    total_read ≤ len → buf.length = len → w.in_pos + (len - total_read) ≤ w.input.length →
    ∃ w', read_file_loop fuel w buf len total_read =
        some (0, buf.take total_read ++ (w.input.drop w.in_pos).take (len - total_read), w') ∧
      w'.follows w ∧ w'.in_pos = w.in_pos + (len - total_read) ∧ w'.output = w.output ∧
      w'.writes = w.writes := by
  intro fuel
  induction fuel with
  | zero => intro w buf len total_read _ hfuel; omega
  | succ fuel ih =>
    intro w buf len total_read hne hfuel htot hbuf hin
    rw [read_file_loop]
    by_cases hdone : total_read = len
    · subst hdone
      refine ⟨w, ?_, w.follows_refl, by simp, rfl, rfl⟩
      simp [← hbuf]
    · rw [if_neg hdone]
      have hlt : total_read < len := lt_of_le_of_ne htot hdone
      cases hs : w.read_script with
      | nil =>
        have hchunk : ((w.input.drop w.in_pos).take (len - total_read)).length = len - total_read := by
          rw [List.length_take, List.length_drop]; omega
        simp only [sys_read, hs, hchunk]
        rw [Nat.add_sub_cancel' htot]
        obtain ⟨fuel', rfl⟩ : ∃ f, fuel = f + 1 := ⟨fuel - 1, by omega⟩
        rw [read_file_loop, if_pos rfl]
        refine ⟨{ w with in_pos := w.in_pos + (len - total_read), reads := w.reads + 1 }, ?_,
          ⟨rfl, List.suffix_refl _, List.suffix_refl _, List.suffix_refl _⟩, rfl, rfl, rfl⟩
        have hst : store_at buf total_read ((w.input.drop w.in_pos).take (len - total_read)) =
            buf.take total_read ++ (w.input.drop w.in_pos).take (len - total_read) := by
          have hd : List.drop len buf = [] := List.drop_of_length_le (by omega)
          simp only [store_at, hchunk, Nat.add_sub_cancel' htot, hd, List.append_nil]
        rw [hst, hs]
      | cons e rest =>
        rw [hs] at hne hfuel
        cases e with
        | eintr =>
          simp only [sys_read, hs]
          obtain ⟨w', hw', hf, hp, ho, hwr⟩ := ih { w with read_script := rest, reads := w.reads + 1 }
            buf len total_read (fun h => hne (List.mem_cons_of_mem _ h))
            (by simp at hfuel ⊢; omega) htot hbuf hin
          refine ⟨w', ?_, ⟨hf.1, ?_, hf.2.2.1, hf.2.2.2⟩, hp, ho, hwr⟩
          · simpa using hw'
          · rw [hs]; exact hf.2.1.trans (List.suffix_cons _ _)
        | error => exact absurd (List.mem_cons_self _ _) hne
        | short n =>
          have hc : ((w.input.drop w.in_pos).take (min n (len - total_read))).length
              = min n (len - total_read) := by
            rw [List.length_take, List.length_drop]; omega
          simp only [sys_read, hs, hc]
          have hcle : min n (len - total_read) ≤ len - total_read := Nat.min_le_right _ _
          have hbuf' : (store_at buf total_read
              ((w.input.drop w.in_pos).take (min n (len - total_read)))).length = len := by
            simp only [store_at, List.length_append, List.length_take, List.length_drop, hc, hbuf]
            omega
          obtain ⟨w', hw', hf, hp, ho, hwr⟩ := ih
            { w with in_pos := w.in_pos + min n (len - total_read), read_script := rest,
                     reads := w.reads + 1 }
            (store_at buf total_read ((w.input.drop w.in_pos).take (min n (len - total_read))))
            len (total_read + min n (len - total_read))
            (fun h => hne (List.mem_cons_of_mem _ h))
            (by simp at hfuel ⊢; omega) (by omega) hbuf' (by simp only []; omega)
          refine ⟨w', ?_, ⟨hf.1, ?_, hf.2.2.1, hf.2.2.2⟩, ?_, ho, hwr⟩
          · rw [hw']
            congr 2
            simp only []
            have h1 : (store_at buf total_read
                ((w.input.drop w.in_pos).take (min n (len - total_read)))).take
                  (total_read + min n (len - total_read)) =
                buf.take total_read ++ (w.input.drop w.in_pos).take (min n (len - total_read)) := by
              simp only [store_at, hc]
              rw [List.take_append_of_le_length (by simp [hc, hbuf]; omega)]
              rw [List.take_of_length_le (by simp [hc, hbuf])]
            rw [h1, List.append_assoc]
            rw [show len - (total_read + min n (len - total_read))
                  = (len - total_read) - min n (len - total_read) by omega]
            rw [show List.drop (w.in_pos + min n (len - total_read)) w.input =
                  List.drop (min n (len - total_read)) (List.drop w.in_pos w.input) by
                rw [List.drop_drop, Nat.add_comm]]
            rw [take_append_take_drop _ _ _ hcle]
          · rw [hs]; exact hf.2.1.trans (List.suffix_cons _ _)
          · rw [hp]; simp only []; omega

theorem write_file_loop_ok : ∀ (fuel : Nat) (w : World) (buf : List Nat) (len total_written : Nat),
    CallEvent.error ∉ w.write_script → w.write_script.length + 2 ≤ fuel →
    total_written ≤ len → len ≤ buf.length →
    ∃ w', write_file_loop fuel w buf len total_written = some (0, w') ∧
      w'.follows w ∧ w'.in_pos = w.in_pos ∧
      w'.output = w.output ++ (buf.drop total_written).take (len - total_written) := by
  intro fuel
  induction fuel with
  | zero => intro w buf len total_written _ hfuel; omega
  | succ fuel ih =>
    intro w buf len total_written hne hfuel htot hbuf
    rw [write_file_loop]
    by_cases hdone : total_written = len
    · subst hdone
      exact ⟨w, by simp, w.follows_refl, rfl, by simp⟩
    · rw [if_neg hdone]
      have hlt : total_written < len := lt_of_le_of_ne htot hdone
      have hlen : ((buf.drop total_written).take (len - total_written)).length
          = len - total_written := by
        rw [List.length_take, List.length_drop]; omega
      cases hs : w.write_script with
      | nil =>
        simp only [sys_write, hs, hlen]
        rw [Nat.add_sub_cancel' htot]
        obtain ⟨fuel', rfl⟩ : ∃ f, fuel = f + 1 := ⟨fuel - 1, by omega⟩
        rw [write_file_loop, if_pos rfl]
        exact ⟨_, rfl, ⟨rfl, List.suffix_refl _, by simp [hs], List.suffix_refl _⟩, rfl, rfl⟩
      | cons e rest =>
        rw [hs] at hne hfuel
        cases e with
        | eintr =>
          simp only [sys_write, hs]
          obtain ⟨w', hw', hf, hp, ho⟩ := ih
            { w with write_script := rest, writes := w.writes + 1 }
            buf len total_written (fun h => hne (List.mem_cons_of_mem _ h))
            (by simp at hfuel ⊢; omega) htot hbuf
          refine ⟨w', ?_, ⟨hf.1, hf.2.1, ?_, hf.2.2.2⟩, hp, ho⟩
          · simpa using hw'
          · rw [hs]; exact hf.2.2.1.trans (List.suffix_cons _ _)
        | error => exact absurd (List.mem_cons_self _ _) hne
        | short n =>
          have hc : (((buf.drop total_written).take (len - total_written)).take n).length
              = min n (len - total_written) := by
            rw [List.length_take, hlen]
          simp only [sys_write, hs, hc]
          have hcle : min n (len - total_written) ≤ len - total_written := Nat.min_le_right _ _
          obtain ⟨w', hw', hf, hp, ho⟩ := ih
            { w with output := w.output ++ ((buf.drop total_written).take (len - total_written)).take n,
                     write_script := rest, writes := w.writes + 1 }
            buf len (total_written + min n (len - total_written))
            (fun h => hne (List.mem_cons_of_mem _ h))
            (by simp at hfuel ⊢; omega) (by omega) hbuf
          refine ⟨w', hw', ⟨hf.1, hf.2.1, ?_, hf.2.2.2⟩, hp, ?_⟩
          · rw [hs]; exact hf.2.2.1.trans (List.suffix_cons _ _)
          · rw [ho]
            simp only []
            rw [List.append_assoc]
            congr 1
            rw [List.take_take]
            rw [show len - (total_written + min n (len - total_written))
                  = (len - total_written) - min n (len - total_written) by omega]
            rw [show List.drop (total_written + min n (len - total_written)) buf =
                  List.drop (min n (len - total_written)) (List.drop total_written buf) by
                rw [List.drop_drop, Nat.add_comm]]
            exact take_append_take_drop _ _ _ hcle

theorem World.fuel_ok_of_follows {w w' : World} {fuel : Nat} (h : w'.follows w)
    (hw : w.fuel_ok fuel) : w'.fuel_ok fuel := by
  have h1 := h.2.1.length_le
  have h2 := h.2.2.1.length_le
  unfold World.fuel_ok at *
  omega

theorem page_at_length (input : List Nat) (pos : Nat) (h : pos + BYTES_PER_PAGE ≤ input.length) :
    (page_at input pos).length = BYTES_PER_PAGE := by
  unfold page_at
  rw [List.length_take, List.length_drop]
  omega

theorem convert_page_ok (fuel : Nat) (t : Tables) (w : World) (data : List Nat)
    (hok : w.calls_ok) (hfuel : w.fuel_ok fuel) (hdata : data.length = BYTES_PER_PAGE)
    (hin : w.in_pos + BYTES_PER_PAGE ≤ w.input.length) :
    ∃ w', convert_page fuel t w data = some (0, page_at w.input w.in_pos, w') ∧
      w'.follows w ∧ w'.in_pos = w.in_pos + BYTES_PER_PAGE ∧
      w'.output = w.output ++ record_at t w.input w.in_pos := by
  unfold World.fuel_ok at hfuel
  obtain ⟨w1, hr, hf1, hp1, ho1, _⟩ := read_file_loop_ok fuel w data BYTES_PER_PAGE 0 hok.1
    (by omega) (Nat.zero_le _) hdata (by simpa using hin)
  have hpage : List.take 0 data ++ List.take (BYTES_PER_PAGE - 0) (List.drop w.in_pos w.input)
      = page_at w.input w.in_pos := by
    simp [page_at]
  rw [hpage] at hr
  have hplen := page_at_length w.input w.in_pos hin
  have hok1 := World.calls_ok_of_follows hf1 hok
  have hl1r := hf1.2.1.length_le
  have hl1w := hf1.2.2.1.length_le
  obtain ⟨w2, hw2, hf2, hp2, ho2⟩ := write_file_loop_ok fuel w1 (page_at w.input w.in_pos)
    BYTES_PER_PAGE 0 hok1.2.1 (by omega) (Nat.zero_le _) (by omega)
  have hok2 := World.calls_ok_of_follows hf2 hok1
  have hl2w := hf2.2.2.1.length_le
  have helen : (calculate_ecc t (page_at w.input w.in_pos) (List.replicate ECC_SIZE 0)).length
      = ECC_SIZE := by
    rw [calculate_ecc_length, List.length_replicate]
  obtain ⟨w3, hw3, hf3, hp3, ho3⟩ := write_file_loop_ok fuel w2
    (calculate_ecc t (page_at w.input w.in_pos) (List.replicate ECC_SIZE 0))
    ECC_SIZE 0 hok2.2.1 (by omega) (Nat.zero_le _) (by omega)
  refine ⟨w3, ?_, World.follows_trans hf3 (World.follows_trans hf2 hf1), ?_, ?_⟩
  · simp only [convert_page, read_file, write_file, hr, hw2, hw3]
    simp
  · rw [hp3, hp2, hp1]; simp
  · rw [ho3, ho2, ho1, List.append_assoc]
    congr 1
    unfold record_at
    rw [List.drop_zero, Nat.sub_zero, List.take_of_length_le (by omega), List.drop_zero,
      Nat.sub_zero, List.take_of_length_le (by omega)]

theorem page_loop_ok (fuel : Nat) (t : Tables) : ∀ (n : Nat) (w : World) (data : List Nat),
    w.calls_ok → w.fuel_ok fuel → data.length = BYTES_PER_PAGE →
    w.in_pos + BYTES_PER_PAGE * n ≤ w.input.length →
    ∃ w' data', page_loop fuel t n w data = some (0, data', w') ∧
      data'.length = BYTES_PER_PAGE ∧
      w'.follows w ∧ w'.in_pos = w.in_pos + BYTES_PER_PAGE * n ∧
      w'.output = w.output ++ records_from t w.input w.in_pos n := by
  intro n
  induction n with
  | zero =>
    intro w data _ _ hdata _
    exact ⟨w, data, rfl, hdata, w.follows_refl, by simp, by simp [records_from]⟩
  | succ n ih =>
    intro w data hok hfuel hdata hin
    obtain ⟨w1, h1, hf1, hp1, ho1⟩ := convert_page_ok fuel t w data hok hfuel hdata
      (by rw [Nat.mul_succ] at hin; omega)
    obtain ⟨w2, data2, h2, hd2, hf2, hp2, ho2⟩ := ih w1 (page_at w.input w.in_pos)
      (World.calls_ok_of_follows hf1 hok) (World.fuel_ok_of_follows hf1 hfuel)
      (page_at_length _ _ (by rw [Nat.mul_succ] at hin; omega))
      (by rw [hf1.1, hp1]; rw [Nat.mul_succ] at hin; omega)
    refine ⟨w2, data2, ?_, hd2, World.follows_trans hf2 hf1, ?_, ?_⟩
    · simp only [page_loop, h1]
      simpa using h2
    · rw [hp2, hp1, Nat.mul_succ]; omega
    · rw [ho2, ho1, hf1.1, hp1, List.append_assoc]
      rfl

theorem records_from_add (t : Tables) (input : List Nat) : ∀ (n m pos : Nat),
    records_from t input pos (n + m) =
      records_from t input pos n ++ records_from t input (pos + BYTES_PER_PAGE * n) m := by
  intro n
  induction n with
  | zero => intro m pos; simp [records_from]
  | succ n ih =>
    intro m pos
    rw [show n + 1 + m = (n + m) + 1 by omega]
    simp only [records_from, ih, List.append_assoc]
    rw [show pos + BYTES_PER_PAGE + BYTES_PER_PAGE * n = pos + BYTES_PER_PAGE * (n + 1) by
      rw [Nat.mul_succ]; omega]

theorem block_loop_ok (fuel : Nat) (t : Tables) : ∀ (n : Nat) (w : World) (data : List Nat),
    w.calls_ok → w.fuel_ok fuel → data.length = BYTES_PER_PAGE →
    w.in_pos + BYTES_PER_PAGE * (PAGES_PER_BLOCK * n) ≤ w.input.length →
    ∃ w' data', block_loop fuel t n w data = some (0, data', w') ∧
      data'.length = BYTES_PER_PAGE ∧
      w'.follows w ∧ w'.in_pos = w.in_pos + BYTES_PER_PAGE * (PAGES_PER_BLOCK * n) ∧
      w'.output = w.output ++ records_from t w.input w.in_pos (PAGES_PER_BLOCK * n) := by
  intro n
  induction n with
  | zero =>
    intro w data _ _ hdata _
    exact ⟨w, data, rfl, hdata, w.follows_refl, by simp, by simp [records_from]⟩
  | succ n ih =>
    intro w data hok hfuel hdata hin
    have hmul : PAGES_PER_BLOCK * (n + 1) = PAGES_PER_BLOCK + PAGES_PER_BLOCK * n := by
      rw [Nat.mul_succ]; omega
    rw [hmul, Nat.mul_add] at hin
    obtain ⟨w1, data1, h1, hd1, hf1, hp1, ho1⟩ := page_loop_ok fuel t PAGES_PER_BLOCK w data hok
      hfuel hdata (by omega)
    obtain ⟨w2, data2, h2, hd2, hf2, hp2, ho2⟩ := ih w1 data1
      (World.calls_ok_of_follows hf1 hok) (World.fuel_ok_of_follows hf1 hfuel) hd1
      (by rw [hf1.1, hp1]; omega)
    refine ⟨w2, data2, ?_, hd2, World.follows_trans hf2 hf1, ?_, ?_⟩
    · simp only [block_loop, h1]
      simpa using h2
    · rw [hp2, hp1, hmul, Nat.mul_add]; omega
    · rw [ho2, ho1, hf1.1, hp1, List.append_assoc, hmul, records_from_add]

theorem get_file_size_ok (w : World) (h : true ∉ w.seek_script) :
    ∃ w', get_file_size w = (w.input.length, w') ∧ w'.follows w ∧ w'.in_pos = 0 ∧
      w'.output = w.output := by
  unfold get_file_size sys_lseek_end
  cases hs : w.seek_script with
  | nil =>
    simp only [sys_lseek_set, hs]
    exact ⟨_, rfl, ⟨rfl, List.suffix_refl _, List.suffix_refl _, by simp [hs]⟩, rfl, rfl⟩
  | cons b rest =>
    rw [hs] at h
    cases b with
    | true => exact absurd (List.mem_cons_self _ _) h
    | false =>
      simp only [sys_lseek_set]
      cases rest with
      | nil =>
        exact ⟨_, rfl, ⟨rfl, List.suffix_refl _, List.suffix_refl _, by simp [hs]⟩, rfl, rfl⟩
      | cons b' rest' =>
        cases b' with
        | true => exact absurd (List.mem_cons_of_mem _ (List.mem_cons_self _ _)) h
        | false =>
          refine ⟨_, rfl, ⟨rfl, List.suffix_refl _, List.suffix_refl _, ?_⟩, rfl, rfl⟩
          rw [hs]
          exact (List.suffix_cons _ _).trans (List.suffix_cons _ _)

theorem get_file_size_frame (w : World) :
    ((get_file_size w).1 = w.input.length ∨ (get_file_size w).1 = 1) ∧
    (get_file_size w).2.output = w.output ∧ (get_file_size w).2.writes = w.writes ∧
    (get_file_size w).2.reads = w.reads := by
  unfold get_file_size sys_lseek_end sys_lseek_set
  rcases w.seek_script with _ | ⟨_ | _, _ | ⟨_ | _, _⟩⟩ <;> simp

theorem convert_memcard_ok (fuel : Nat) (t : Tables) (w : World)
    (hsize : w.input.length = EXPECTED_NON_ECC_MEMCARD_SIZE) (hok : w.calls_ok)
    (hfuel : w.fuel_ok fuel) :
    ∃ w', convert_memcard fuel t w = some (0, w') ∧
      w'.output = w.output ++
        records_from t w.input 0 (PAGES_PER_BLOCK * BLOCKS_PER_CARD) := by
  obtain ⟨w0, h0, hf0, hp0, ho0⟩ := get_file_size_ok w hok.2.2
  obtain ⟨w1, data1, h1, _, _, _, ho1⟩ := block_loop_ok fuel t BLOCKS_PER_CARD w0
    (List.replicate BYTES_PER_PAGE 0) (World.calls_ok_of_follows hf0 hok)
    (World.fuel_ok_of_follows hf0 hfuel) (List.length_replicate _ _)
    (by rw [hp0, hf0.1, hsize]; decide)
  refine ⟨w1, ?_, ?_⟩
  · simp only [convert_memcard, h0, hsize, h1]
    simp
  · rw [ho1, ho0, hf0.1, hp0]

theorem record_at_length (t : Tables) (input : List Nat) (pos : Nat)
    (h : pos + BYTES_PER_PAGE ≤ input.length) :
    (record_at t input pos).length = BYTES_PER_PAGE + ECC_SIZE := by
  unfold record_at
  rw [List.length_append, page_at_length _ _ h, calculate_ecc_length, List.length_replicate]

theorem records_from_length (t : Tables) (input : List Nat) : ∀ (n pos : Nat),
    pos + BYTES_PER_PAGE * n ≤ input.length →
    (records_from t input pos n).length = (BYTES_PER_PAGE + ECC_SIZE) * n := by
  intro n
  induction n with
  | zero => intro pos _; simp [records_from]
  | succ n ih =>
    intro pos h
    rw [Nat.mul_succ] at h
    rw [records_from, List.length_append, record_at_length _ _ _ (by omega),
      ih (pos + BYTES_PER_PAGE) (by omega), Nat.mul_succ]
    omega

theorem records_from_record (t : Tables) (input : List Nat) (n k pos : Nat) (hk : k < n)
    (h : pos + BYTES_PER_PAGE * n ≤ input.length) :
    ((records_from t input pos n).drop ((BYTES_PER_PAGE + ECC_SIZE) * k)).take
        (BYTES_PER_PAGE + ECC_SIZE) =
      record_at t input (pos + BYTES_PER_PAGE * k) := by
  obtain ⟨m, rfl⟩ : ∃ m, n = k + (m + 1) := ⟨n - k - 1, by omega⟩
  have hmul : BYTES_PER_PAGE * (k + (m + 1)) =
      BYTES_PER_PAGE * k + BYTES_PER_PAGE + BYTES_PER_PAGE * m := by
    rw [Nat.mul_add, Nat.mul_succ]; omega
  rw [hmul] at h
  rw [records_from_add]
  have hl := records_from_length t input k pos (by omega)
  rw [List.drop_append_of_le_length (by omega), List.drop_of_length_le (by omega), List.nil_append,
    records_from]
  rw [List.take_append_of_le_length (by rw [record_at_length _ _ _ (by omega)]),
    List.take_of_length_le (by rw [record_at_length _ _ _ (by omega)])]

theorem record_at_eq (t : Tables) (input : List Nat) (pos : Nat) :
    record_at t input pos =
      page_at input pos ++
        ((calculate_ecc t (page_at input pos) (List.replicate ECC_SIZE 0)).take 12 ++
          List.replicate 4 0) := by
  unfold record_at
  have h := calculate_ecc_drop t (page_at input pos) (List.replicate ECC_SIZE 0)
  have hz : List.drop 12 (List.replicate ECC_SIZE 0) = List.replicate 4 0 := by decide
  rw [hz] at h
  rw [← h, List.take_append_drop]

/-- C1: for an input image of exactly 8,388,608 bytes, when no call fails with an error other than
`EINTR` and the fuel covers the retries, `convert_memcard` returns 0 and, for every page index
`k` below 16384, record `k` of the bytes it has written is the input bytes `[512k, 512k + 512)`,
then the first 12 bytes `calculate_ecc` computes for that page, then 4 zero bytes. -/
theorem convert_memcard_records (fuel : Nat) (t : Tables) (w : World)
    (hsize : w.input.length = 8388608) (hok : w.calls_ok) (hfuel : w.fuel_ok fuel) :
    ∃ w' out, convert_memcard fuel t w = some (0, w') ∧ w'.output = w.output ++ out ∧
      ∀ k, k < 16384 →
        (out.drop (528 * k)).take 528 =
          (w.input.drop (512 * k)).take 512 ++
            ((calculate_ecc t ((w.input.drop (512 * k)).take 512) (List.replicate 16 0)).take 12
              ++ List.replicate 4 0) := by
  obtain ⟨w', hw', ho⟩ := convert_memcard_ok fuel t w hsize hok hfuel
  refine ⟨w', _, hw', ho, fun k hk => ?_⟩
  have h := records_from_record t w.input (PAGES_PER_BLOCK * BLOCKS_PER_CARD) k 0 hk
    (by rw [hsize]; decide)
  rw [record_at_eq] at h
  simpa [page_at, BYTES_PER_PAGE, ECC_SIZE] using h

theorem convert_memcard_records_witness :
    ∃ w' out, convert_memcard 6 ecc_tables example_world = some (0, w') ∧
      w'.output = example_world.output ++ out ∧
      ∀ k, k < 16384 →
        (out.drop (528 * k)).take 528 =
          (example_world.input.drop (512 * k)).take 512 ++
            ((calculate_ecc ecc_tables ((example_world.input.drop (512 * k)).take 512)
              (List.replicate 16 0)).take 12 ++ List.replicate 4 0) :=
  convert_memcard_records 6 ecc_tables example_world (List.length_replicate 8388608 0)
    (by decide) (by decide)

/-- C2: on an input of exactly 8,388,608 bytes (no call failing with an error other than `EINTR`,
fuel covering the retries) `convert_memcard` returns 0 after writing exactly 8,650,752 bytes; on
an input of any other length it returns 1 without issuing a write. -/
theorem convert_memcard_size_law (fuel : Nat) (t : Tables) (w : World) :
    (w.input.length = 8388608 → w.calls_ok → w.fuel_ok fuel →
      ∃ w' out, convert_memcard fuel t w = some (0, w') ∧ w'.output = w.output ++ out ∧
        out.length = 8650752) ∧
    (w.input.length ≠ 8388608 →
      ∃ w', convert_memcard fuel t w = some (1, w') ∧ w'.output = w.output ∧
        w'.writes = w.writes) := by
  constructor
  · intro hsize hok hfuel
    obtain ⟨w', hw', ho⟩ := convert_memcard_ok fuel t w hsize hok hfuel
    refine ⟨w', _, hw', ho, ?_⟩
    rw [records_from_length t w.input _ 0 (by rw [hsize]; decide)]
    decide
  · intro hsize
    obtain ⟨hs, ho, hw, _⟩ := get_file_size_frame w
    refine ⟨(get_file_size w).2, ?_, ho, hw⟩
    have hne : (get_file_size w).1 ≠ EXPECTED_NON_ECC_MEMCARD_SIZE := by
      rcases hs with hs | hs
      · rw [hs]; exact hsize
      · rw [hs]; decide
    simp only [convert_memcard, hne, ne_eq, not_false_eq_true, if_true]

theorem convert_memcard_size_law_witness :
    (∃ w' out, convert_memcard 6 ecc_tables example_world = some (0, w') ∧
        w'.output = example_world.output ++ out ∧ out.length = 8650752) ∧
    (∃ w', convert_memcard 0 ecc_tables short_world = some (1, w') ∧
        w'.output = short_world.output ∧ w'.writes = short_world.writes) :=
  ⟨(convert_memcard_size_law 6 ecc_tables example_world).1 (List.length_replicate 8388608 0)
      (by decide) (by decide),
    (convert_memcard_size_law 0 ecc_tables short_world).2
      (by rw [show short_world.input.length = 8388607 from List.length_replicate 8388607 0]
          decide)⟩

theorem ecc_byte_step_line_state (t : Tables) (data : List Nat) (i indet pos : Nat) (hi : i < 4)
    (b : Bool) :
    ecc_byte_step t data i indet (line_state i b) pos =
      line_state i (xor b (odd_byte t data i pos)) := by
  unfold ecc_byte_step odd_byte
  dsimp only
  generalize t.parity_table.getD (data.getD (ECC_BYTES_LENGTH * i + pos) 0) 0 = v
  by_cases h : v = 0
  · subst h
    simp
  · have hv : (v != 0) = true := by simpa using h
    rw [if_pos h, hv, Bool.xor_true]
    interval_cases i <;> cases b <;> rfl

theorem xor_decide_odd (b c : Bool) (n : Nat) :
    xor (xor b c) (decide (n % 2 = 1)) = xor b (decide ((n + if c = true then 1 else 0) % 2 = 1)) := by
  rcases Nat.mod_two_eq_zero_or_one n with h | h <;> cases b <;> cases c <;>
    simp [h, Nat.add_mod]

theorem foldl_ecc_byte_step_line_state (t : Tables) (data : List Nat) (i indet : Nat) (hi : i < 4)
    (l : List Nat) : ∀ b : Bool,
    l.foldl (ecc_byte_step t data i indet) (line_state i b) =
      line_state i (xor b (decide (l.countP (odd_byte t data i) % 2 = 1))) := by
  induction l with
  | nil => intro b; simp
  | cons pos l ih =>
    intro b
    rw [List.foldl_cons, ecc_byte_step_line_state t data i indet pos hi, ih, List.countP_cons,
      xor_decide_odd]

theorem ecc_quarter_acc_eq (t : Tables) (data : List Nat) (i : Nat) (hi : i < 4) :
    ecc_quarter_acc t data i = line_state i (decide (toggles t data i % 2 = 1)) := by
  have h := foldl_ecc_byte_step_line_state t data i 0 hi (List.range ECC_BYTES_LENGTH) false
  simpa [ecc_quarter_acc, toggles, line_state] using h

/-- C13: for every table, page and quarter `i`, the byte `calculate_ecc` stores at offset `3 * i`
of a 16-byte buffer is the seed 0x77: the accumulator of line 90 is never updated, so the value
depends neither on the page nor on `column_parity_masks`. -/
theorem column_parity_is_seed (t : Tables) (data ecc : List Nat) (hecc : ecc.length = ECC_SIZE)
    (i : Nat) (hi : i < 4) :
    (calculate_ecc t data ecc).getD (3 * i) 0 = 0x77 := by
  rw [(calculate_ecc_getD t data ecc (by rw [hecc]; decide) i hi).1,
    ecc_quarter_acc_column_parity]

theorem column_parity_is_seed_witness :
    (calculate_ecc ecc_tables (List.range 512) (List.replicate ECC_SIZE 0)).getD (3 * 2) 0 = 0x77 :=
  column_parity_is_seed ecc_tables (List.range 512) (List.replicate ECC_SIZE 0)
    (List.length_replicate _ _) 2 (by decide)

theorem make_ecc_tables_parity_le_one (t : Tables) (ht : t.wf) (b : Nat) :
    (make_ecc_tables t).parity_table.getD b 0 ≤ 1 := by
  rw [make_ecc_tables_eq t ht]
  by_cases hb : b < 256
  · rw [getD_map_range parity 256 b hb]
    exact Nat.and_le_right
  · rw [List.getD_eq_default _ _ (by simp; omega)]
    omega

theorem make_ecc_tables_parity_byte (t : Tables) (ht : t.wf) (b : Nat) (hb : b < 256) :
    (make_ecc_tables t).parity_table.getD b 0 = parity b := by
  rw [make_ecc_tables_eq t ht, getD_map_range parity 256 b hb]

theorem odd_bytes_eq_toggles (t : Tables) (ht : t.wf) (data : List Nat) (i : Nat) :
    odd_bytes (make_ecc_tables t) data i = toggles (make_ecc_tables t) data i := by
  unfold odd_bytes toggles
  apply List.countP_congr
  intro pos _
  unfold odd_byte
  have h := make_ecc_tables_parity_le_one t ht (data.getD (ECC_BYTES_LENGTH * i + pos) 0)
  generalize (make_ecc_tables t).parity_table.getD (data.getD (ECC_BYTES_LENGTH * i + pos) 0) 0
    = v at h
  interval_cases v <;> simp

theorem countP_mod_two_eq_sum {α : Type} (g : α → Bool) (f : α → Nat) (l : List α)
    (h : ∀ x ∈ l, (g x = true ↔ f x % 2 = 1)) :
    l.countP g % 2 = (l.map f).sum % 2 := by
  induction l with
  | nil => rfl
  | cons x l ih =>
    have ih' := ih (fun y hy => h y (List.mem_cons_of_mem _ hy))
    have hx := h x (List.mem_cons_self _ _)
    rw [List.countP_cons, List.map_cons, List.sum_cons]
    by_cases hg : g x = true
    · have := hx.mp hg
      rw [if_pos hg]
      omega
    · have : f x % 2 ≠ 1 := fun hf => hg (hx.mpr hf)
      rw [if_neg hg]
      omega

theorem is_page_getD_lt (data : List Nat) (h : is_page data) (k : Nat) : data.getD k 0 < 256 := by
  by_cases hk : k < data.length
  · rw [List.getD_eq_getElem _ _ hk]
    exact h.2 _ (List.getElem_mem _)
  · rw [List.getD_eq_default _ _ (by omega)]
    decide

theorem odd_bytes_mod_two (t : Tables) (ht : t.wf) (data : List Nat) (hdata : is_page data)
    (i : Nat) :
    odd_bytes (make_ecc_tables t) data i % 2 = quarter_bits data i % 2 := by
  unfold odd_bytes quarter_bits
  apply countP_mod_two_eq_sum
  intro pos _
  have hb := is_page_getD_lt data hdata (ECC_BYTES_LENGTH * i + pos)
  rw [make_ecc_tables_parity_byte t ht _ hb]
  simpa using parity_eq_one_iff _ hb

theorem line_state_bytes (i : Nat) (hi : i < 4) :
    (line_state i false).line_parity_0 &&& 0x7F = 0x7F ∧ (line_state i false).line_parity_1 = 0x7F ∧
    (line_state i true).line_parity_0 &&& 0x7F = i ∧
    (line_state i true).line_parity_1 = 0x7F ^^^ i := by
  interval_cases i <;> decide

/-- C14: for tables built by `make_ecc_tables`, a page and a quarter `i`, with `k` the number of
bytes of the quarter whose `parity_table` entry is 1: when `k` is even the bytes at offsets
`3i + 1` and `3i + 2` are 7F 7F, when `k` is odd they are `i` and `0x7F XOR i`; and `k` has the
parity of the number of set bits of the quarter. -/
theorem line_parity_by_count (t : Tables) (ht : t.wf) (data ecc : List Nat) (hdata : is_page data)
    (hecc : ecc.length = ECC_SIZE) (i : Nat) (hi : i < 4) :
    (odd_bytes (make_ecc_tables t) data i % 2 = 0 →
      (calculate_ecc (make_ecc_tables t) data ecc).getD (3 * i + 1) 0 = 0x7F ∧
      (calculate_ecc (make_ecc_tables t) data ecc).getD (3 * i + 2) 0 = 0x7F) ∧
    (odd_bytes (make_ecc_tables t) data i % 2 = 1 →
      (calculate_ecc (make_ecc_tables t) data ecc).getD (3 * i + 1) 0 = i ∧
      (calculate_ecc (make_ecc_tables t) data ecc).getD (3 * i + 2) 0 = 0x7F ^^^ i) ∧
    odd_bytes (make_ecc_tables t) data i % 2 = quarter_bits data i % 2 := by
  have hg := calculate_ecc_getD (make_ecc_tables t) data ecc (by rw [hecc]; decide) i hi
  rw [ecc_quarter_acc_eq _ data i hi, ← odd_bytes_eq_toggles t ht] at hg
  have hb := line_state_bytes i hi
  refine ⟨fun hk => ?_, fun hk => ?_, odd_bytes_mod_two t ht data hdata i⟩
  · rw [hg.2.1, hg.2.2, hk]
    exact ⟨hb.1, hb.2.1⟩
  · rw [hg.2.1, hg.2.2, hk]
    exact ⟨hb.2.2.1, hb.2.2.2⟩

theorem countP_range_congr (P Q : Nat → Bool) (n : Nat) (h : ∀ j, j < n → P j = Q j) :
    (List.range n).countP P = (List.range n).countP Q := by
  apply List.countP_congr
  intro j hj
  rw [h j (List.mem_range.mp hj)]

theorem countP_range_toggle (P Q : Nat → Bool) (p : Nat) :
    ∀ n, p < n → (∀ j, j < n → j ≠ p → P j = Q j) → P p = !Q p →
      ((List.range n).countP P + (List.range n).countP Q) % 2 = 1 := by
  intro n
  induction n with
  | zero => intro hp; omega
  | succ n ih =>
    intro hp hsame hdiff
    rw [List.range_succ, List.countP_append, List.countP_append, List.countP_singleton,
      List.countP_singleton]
    by_cases hpn : p = n
    · subst hpn
      rw [countP_range_congr P Q p (fun j hj => hsame j (by omega) (by omega)), hdiff]
      cases Q p <;> simp <;> omega
    · have h1 := ih (by omega) (fun j hj hne => hsame j (by omega) hne) hdiff
      rw [hsame n (by omega) (fun h => hpn h.symm)]
      cases Q n <;> simp <;> omega

set_option maxRecDepth 100000 in
theorem parity_flip : ∀ b, b < 256 → ∀ bit, bit < 8 →
    b ^^^ (1 <<< bit) < 256 ∧ parity (b ^^^ (1 <<< bit)) + parity b = 1 := by decide

theorem odd_byte_flip (t : Tables) (ht : t.wf) (data : List Nat) (hdata : is_page data)
    (o bit : Nat) (ho : o < BYTES_PER_PAGE) (hbit : bit < 8) (i pos : Nat)
    (hpos : ECC_BYTES_LENGTH * i + pos = o) :
    odd_byte (make_ecc_tables t) (flip_bit data o bit) i pos =
      !odd_byte (make_ecc_tables t) data i pos := by
  have hb := is_page_getD_lt data hdata o
  have hf := parity_flip _ hb bit hbit
  have hset : (flip_bit data o bit).getD o 0 = data.getD o 0 ^^^ (1 <<< bit) := by
    unfold flip_bit
    rw [List.getD_eq_getElem?_getD, List.getElem?_set, if_pos rfl, if_pos (by rw [hdata.1]; exact ho)]
    rfl
  unfold odd_byte
  rw [hpos, hset, make_ecc_tables_parity_byte t ht _ hf.1, make_ecc_tables_parity_byte t ht _ hb]
  have h1 : parity (data.getD o 0) ≤ 1 := Nat.and_le_right
  generalize parity (data.getD o 0) = x at hf h1
  generalize parity (data.getD o 0 ^^^ 1 <<< bit) = y at hf
  have hy : y = 1 - x := by omega
  subst hy
  interval_cases x <;> rfl

theorem odd_byte_flip_other (t : Tables) (data : List Nat) (o bit i pos : Nat)
    (hpos : ECC_BYTES_LENGTH * i + pos ≠ o) :
    odd_byte t (flip_bit data o bit) i pos = odd_byte t data i pos := by
  have h : (flip_bit data o bit).getD (ECC_BYTES_LENGTH * i + pos) 0 =
      data.getD (ECC_BYTES_LENGTH * i + pos) 0 := by
    have hne : ¬ o = ECC_BYTES_LENGTH * i + pos := fun h => hpos h.symm
    simp only [flip_bit, List.getD_eq_getElem?_getD, List.getElem?_set, if_neg hne]
  unfold odd_byte
  rw [h]

theorem line_state_byte_ne (i : Nat) (hi : i < 4) :
    (line_state i true).line_parity_0 &&& 0x7F ≠ (line_state i false).line_parity_0 &&& 0x7F := by
  interval_cases i <;> decide

/-- C15: for tables built by `make_ecc_tables`, every page and every bit of it, the first 12 bytes
`calculate_ecc` stores for the page with that bit inverted differ from the 12 bytes it stores for
the page itself. -/
theorem single_bit_error_detected (t : Tables) (ht : t.wf) (data ecc : List Nat)
    (hdata : is_page data) (hecc : ecc.length = ECC_SIZE) (o bit : Nat)
    (ho : o < BYTES_PER_PAGE) (hbit : bit < 8) :
    (calculate_ecc (make_ecc_tables t) (flip_bit data o bit) ecc).take 12 ≠
      (calculate_ecc (make_ecc_tables t) data ecc).take 12 := by
  have hq : o / 128 < 4 := by
    simp only [BYTES_PER_PAGE] at ho
    omega
  have hlen : 12 ≤ ecc.length := by rw [hecc]; decide
  have hsum := countP_range_toggle (odd_byte (make_ecc_tables t) (flip_bit data o bit) (o / 128))
    (odd_byte (make_ecc_tables t) data (o / 128)) (o % 128) ECC_BYTES_LENGTH
    (Nat.mod_lt _ (by decide))
    (fun j _ hne => odd_byte_flip_other _ data o bit (o / 128) j (by
      simp only [ECC_BYTES_LENGTH]
      omega))
    (odd_byte_flip t ht data hdata o bit ho hbit (o / 128) (o % 128) (by
      simp only [ECC_BYTES_LENGTH]
      omega))
  have h1 := (calculate_ecc_getD (make_ecc_tables t) (flip_bit data o bit) ecc hlen _ hq).2.1
  have h2 := (calculate_ecc_getD (make_ecc_tables t) data ecc hlen _ hq).2.1
  rw [ecc_quarter_acc_eq _ _ _ hq] at h1 h2
  intro heq
  have hget : (calculate_ecc (make_ecc_tables t) (flip_bit data o bit) ecc).getD (3 * (o / 128) + 1) 0
      = (calculate_ecc (make_ecc_tables t) data ecc).getD (3 * (o / 128) + 1) 0 := by
    have := congrArg (fun l => l.getD (3 * (o / 128) + 1) 0) heq
    simpa [List.getD_eq_getElem?_getD, List.getElem?_take, show 3 * (o / 128) + 1 < 12 by omega]
      using this
  rw [h1, h2] at hget
  have hne := line_state_byte_ne _ hq
  unfold toggles at hget
  rcases Nat.mod_two_eq_zero_or_one
      ((List.range ECC_BYTES_LENGTH).countP (odd_byte (make_ecc_tables t) data (o / 128)))
    with hk | hk
  · have hk' : (List.range ECC_BYTES_LENGTH).countP
        (odd_byte (make_ecc_tables t) (flip_bit data o bit) (o / 128)) % 2 = 1 := by omega
    rw [hk, hk'] at hget
    exact hne hget
  · have hk' : (List.range ECC_BYTES_LENGTH).countP
        (odd_byte (make_ecc_tables t) (flip_bit data o bit) (o / 128)) % 2 = 0 := by omega
    rw [hk, hk'] at hget
    exact hne hget.symm

theorem getD_take_drop (l : List Nat) (a n pos : Nat) (h : pos < n) :
    ((l.drop a).take n).getD pos 0 = l.getD (a + pos) 0 := by
  simp [List.getD_eq_getElem?_getD, List.getElem?_take, h, List.getElem?_drop]

/-- C18: for every quarter `i` and every two pages that agree on bytes `[128i, 128i + 128)`,
`calculate_ecc` stores the same bytes at offsets `3i`, `3i + 1` and `3i + 2`, whatever the
tables and whatever the two 16-byte buffers held before. -/
theorem ecc_group_depends_on_quarter (t : Tables) (data data' ecc ecc' : List Nat)
    (hecc : ecc.length = ECC_SIZE) (hecc' : ecc'.length = ECC_SIZE) (i : Nat) (hi : i < 4)
    (h : (data.drop (128 * i)).take 128 = (data'.drop (128 * i)).take 128) :
    (calculate_ecc t data ecc).getD (3 * i) 0 = (calculate_ecc t data' ecc').getD (3 * i) 0 ∧
    (calculate_ecc t data ecc).getD (3 * i + 1) 0 =
      (calculate_ecc t data' ecc').getD (3 * i + 1) 0 ∧
    (calculate_ecc t data ecc).getD (3 * i + 2) 0 =
      (calculate_ecc t data' ecc').getD (3 * i + 2) 0 := by
  have hacc : ecc_quarter_acc t data i = ecc_quarter_acc t data' i := by
    apply ecc_quarter_acc_congr
    intro pos hpos
    have h1 := getD_take_drop data (128 * i) 128 pos hpos
    have h2 := getD_take_drop data' (128 * i) 128 pos hpos
    rw [h] at h1
    exact h1.symm.trans h2
  have h1 := calculate_ecc_getD t data ecc (by rw [hecc]; decide) i hi
  have h2 := calculate_ecc_getD t data' ecc' (by rw [hecc']; decide) i hi
  rw [hacc] at h1
  exact ⟨h1.1.trans h2.1.symm, h1.2.1.trans h2.2.1.symm, h1.2.2.trans h2.2.2.symm⟩

theorem store_at_nil (buf : List Nat) (off : Nat) : store_at buf off [] = buf := by
  simp [store_at]

theorem read_file_loop_eof : ∀ (fuel : Nat) (w : World) (buf : List Nat) (len total_read : Nat),
    w.read_script = [] → w.input.length ≤ w.in_pos → total_read ≠ len →
    read_file_loop fuel w buf len total_read = none := by
  intro fuel
  induction fuel with
  | zero => intro w buf len total_read _ _ _; rfl
  | succ fuel ih =>
    intro w buf len total_read hs heof hne
    have hchunk : (w.input.drop w.in_pos).take (len - total_read) = [] := by
      rw [List.drop_of_length_le heof, List.take_nil]
    rw [read_file_loop, if_neg hne]
    simp only [sys_read, hs, hchunk, store_at_nil, List.length_nil, Nat.add_zero]
    exact ih _ buf len total_read rfl heof hne

/-- C16, evaluated: with the descriptor at the end of the file, where every `read` returns 0,
`read_file` for one byte or more does not return, whatever the number of loop iterations
allowed; it never reports the failure the claim asks for. -/
theorem read_file_loops_at_eof (fuel len : Nat) (buf : List Nat) :
    read_file fuel eof_world buf (len + 1) = none :=
  read_file_loop_eof fuel eof_world buf (len + 1) 0 rfl (by decide) (by omega)

theorem calculate_ecc_take (t : Tables) (data ecc : List Nat) (h : 12 ≤ ecc.length) :
    (calculate_ecc t data ecc).take 12 =
      [(ecc_quarter_acc t data 0).column_parity, (ecc_quarter_acc t data 0).line_parity_0 &&& 0x7F,
       (ecc_quarter_acc t data 0).line_parity_1,
       (ecc_quarter_acc t data 1).column_parity, (ecc_quarter_acc t data 1).line_parity_0 &&& 0x7F,
       (ecc_quarter_acc t data 1).line_parity_1,
       (ecc_quarter_acc t data 2).column_parity, (ecc_quarter_acc t data 2).line_parity_0 &&& 0x7F,
       (ecc_quarter_acc t data 2).line_parity_1,
       (ecc_quarter_acc t data 3).column_parity, (ecc_quarter_acc t data 3).line_parity_0 &&& 0x7F,
       (ecc_quarter_acc t data 3).line_parity_1] := by
  have k0 := calculate_ecc_getD t data ecc h 0 (by omega)
  have k1 := calculate_ecc_getD t data ecc h 1 (by omega)
  have k2 := calculate_ecc_getD t data ecc h 2 (by omega)
  have k3 := calculate_ecc_getD t data ecc h 3 (by omega)
  rw [take_eq_map_getD _ 12 (by rw [calculate_ecc_length]; exact h)]
  simp only [List.range_succ, List.range_zero, List.nil_append, List.cons_append, List.map_cons,
    List.map_nil]
  simp only [Nat.mul_zero, Nat.mul_one, Nat.zero_add, Nat.reduceMul, Nat.reduceAdd] at k0 k1 k2 k3
  rw [k0.1, k0.2.1, k0.2.2, k1.1, k1.2.1, k1.2.2, k2.1, k2.2.1, k2.2.2, k3.1, k3.2.1, k3.2.2]

theorem calculate_ecc_zeroed (t : Tables) (data : List Nat) :
    calculate_ecc t data (List.replicate ECC_SIZE 0) =
      (calculate_ecc t data (List.replicate ECC_SIZE 0)).take 12 ++ List.replicate 4 0 := by
  have h := calculate_ecc_drop t data (List.replicate ECC_SIZE 0)
  have hz : List.drop 12 (List.replicate ECC_SIZE 0) = List.replicate 4 0 := by decide
  rw [hz] at h
  rw [← h, List.take_append_drop]

theorem calculate_ecc_zero_page_full (t : Tables) (ht : t.wf) :
    calculate_ecc (make_ecc_tables t) (List.replicate BYTES_PER_PAGE 0) (List.replicate ECC_SIZE 0)
      = zero_page_ecc := by
  rw [calculate_ecc_zeroed, calculate_ecc_take _ _ _ (by decide)]
  simp only [ecc_quarter_acc_zero _ (make_ecc_tables_parity_zero t ht)]
  rfl

theorem page_at_replicate (n pos : Nat) (h : pos + BYTES_PER_PAGE ≤ n) :
    page_at (List.replicate n 0) pos = List.replicate BYTES_PER_PAGE 0 := by
  unfold page_at
  rw [List.drop_replicate, List.take_replicate]
  congr 1
  omega

/-- C11: for an input of 8,388,608 zero bytes and tables built by `make_ecc_tables`, when no call
fails with an error other than `EINTR`, `convert_memcard` returns 0 after writing 8,650,752 bytes,
and each of the 16384 records is 512 zero bytes, then the 12 ECC bytes of the all-zero page, then
4 zero bytes. -/
theorem convert_zero_image (fuel : Nat) (t : Tables) (ht : t.wf) (w : World)
    (hin : w.input = List.replicate 8388608 0) (hok : w.calls_ok) (hfuel : w.fuel_ok fuel) :
    ∃ w' out, convert_memcard fuel (make_ecc_tables t) w = some (0, w') ∧
      w'.output = w.output ++ out ∧ out.length = 8650752 ∧
      ∀ k, k < 16384 →
        (out.drop (528 * k)).take 528 =
          List.replicate 512 0 ++
            ([0x77, 0x7F, 0x7F, 0x77, 0x7F, 0x7F, 0x77, 0x7F, 0x7F, 0x77, 0x7F, 0x7F] ++
              List.replicate 4 0) := by
  have hsize : w.input.length = EXPECTED_NON_ECC_MEMCARD_SIZE := by
    rw [hin, List.length_replicate]
    rfl
  obtain ⟨w', hw', ho⟩ := convert_memcard_ok fuel (make_ecc_tables t) w hsize hok hfuel
  refine ⟨w', _, hw', ho, ?_, fun k hk => ?_⟩
  · rw [records_from_length _ w.input _ 0 (by rw [hsize]; decide)]
    decide
  · have h := records_from_record (make_ecc_tables t) w.input (PAGES_PER_BLOCK * BLOCKS_PER_CARD)
      k 0 hk (by rw [hsize]; decide)
    have hp : page_at w.input (0 + BYTES_PER_PAGE * k) = List.replicate BYTES_PER_PAGE 0 := by
      rw [hin]
      exact page_at_replicate _ _ (by simp only [BYTES_PER_PAGE]; omega)
    rw [record_at, hp, calculate_ecc_zero_page_full t ht] at h
    exact h

theorem page_at_cons_replicate (a n : Nat) (h : 511 ≤ n) :
    page_at (a :: List.replicate n 0) 0 = a :: List.replicate 511 0 := by
  unfold page_at
  rw [List.drop_zero, show BYTES_PER_PAGE = 511 + 1 from rfl, List.take_succ_cons,
    List.take_replicate]
  congr 2
  omega

theorem ecc_quarter_acc_cons_zero (t : Tables) (h : t.parity_table.getD 0 0 = 0) (a i : Nat)
    (hi : 1 ≤ i) :
    ecc_quarter_acc t (a :: List.replicate 511 0) i = ⟨0x77, 0x7F, 0x7F⟩ := by
  rw [← ecc_quarter_acc_zero t h i]
  apply ecc_quarter_acc_congr
  intro pos _
  obtain ⟨m, hm⟩ : ∃ m, ECC_BYTES_LENGTH * i + pos = m + 1 :=
    ⟨ECC_BYTES_LENGTH * i + pos - 1, by simp only [ECC_BYTES_LENGTH]; omega⟩
  rw [hm, List.getD_cons_succ]
  simp only [List.getD_eq_getElem?_getD, List.getElem?_replicate]
  split <;> split <;> rfl

/-- C12: for the 8,388,608-byte input whose first byte is 0xFF and whose other bytes are zero,
tables built by `make_ecc_tables` and no call failing with an error other than `EINTR`,
`convert_memcard` returns 0 and bytes 3..15 of the ECC block of the first record are those of the
all-zero page: 77 7F 7F three times, then 4 zero bytes. -/
theorem convert_one_ff_image (fuel : Nat) (t : Tables) (ht : t.wf) (w : World)
    (hin : w.input = 0xFF :: List.replicate 8388607 0) (hok : w.calls_ok)
    (hfuel : w.fuel_ok fuel) :
    ∃ w' out, convert_memcard fuel (make_ecc_tables t) w = some (0, w') ∧
      w'.output = w.output ++ out ∧
      ((out.drop 512).take 16).drop 3 =
        (calculate_ecc (make_ecc_tables t) (List.replicate 512 0) (List.replicate 16 0)).drop 3 ∧
      ((out.drop 512).take 16).drop 3 =
        [0x77, 0x7F, 0x7F, 0x77, 0x7F, 0x7F, 0x77, 0x7F, 0x7F, 0, 0, 0, 0] := by
  have hsize : w.input.length = EXPECTED_NON_ECC_MEMCARD_SIZE := by
    rw [hin, List.length_cons, List.length_replicate]
    rfl
  obtain ⟨w', hw', ho⟩ := convert_memcard_ok fuel (make_ecc_tables t) w hsize hok hfuel
  have h := records_from_record (make_ecc_tables t) w.input (PAGES_PER_BLOCK * BLOCKS_PER_CARD)
    0 0 (by decide) (by rw [hsize]; decide)
  have hp : page_at w.input (0 + BYTES_PER_PAGE * 0) = 0xFF :: List.replicate 511 0 := by
    rw [hin]
    exact page_at_cons_replicate _ _ (by omega)
  have hz := make_ecc_tables_parity_zero t ht
  have hecc : calculate_ecc (make_ecc_tables t) (0xFF :: List.replicate 511 0)
      (List.replicate ECC_SIZE 0) =
      [(ecc_quarter_acc (make_ecc_tables t) (0xFF :: List.replicate 511 0) 0).column_parity,
       (ecc_quarter_acc (make_ecc_tables t) (0xFF :: List.replicate 511 0) 0).line_parity_0 &&& 0x7F,
       (ecc_quarter_acc (make_ecc_tables t) (0xFF :: List.replicate 511 0) 0).line_parity_1,
       0x77, 0x7F, 0x7F, 0x77, 0x7F, 0x7F, 0x77, 0x7F, 0x7F, 0, 0, 0, 0] := by
    rw [calculate_ecc_zeroed, calculate_ecc_take _ _ _ (by decide)]
    simp only [ecc_quarter_acc_cons_zero _ hz _ _ (Nat.le_refl 1),
      ecc_quarter_acc_cons_zero _ hz _ 2 (by omega), ecc_quarter_acc_cons_zero _ hz _ 3 (by omega)]
    rfl
  rw [record_at, hp, hecc] at h
  have hblock : (List.drop 512 (records_from (make_ecc_tables t) w.input 0
      (PAGES_PER_BLOCK * BLOCKS_PER_CARD))).take 16 =
      [(ecc_quarter_acc (make_ecc_tables t) (0xFF :: List.replicate 511 0) 0).column_parity,
       (ecc_quarter_acc (make_ecc_tables t) (0xFF :: List.replicate 511 0) 0).line_parity_0 &&& 0x7F,
       (ecc_quarter_acc (make_ecc_tables t) (0xFF :: List.replicate 511 0) 0).line_parity_1,
       0x77, 0x7F, 0x7F, 0x77, 0x7F, 0x7F, 0x77, 0x7F, 0x7F, 0, 0, 0, 0] := by
    have h2 := congrArg (List.drop 512) h
    rw [Nat.mul_zero, List.drop_zero, List.drop_take] at h2
    rw [show BYTES_PER_PAGE + ECC_SIZE - 512 = 16 from rfl] at h2
    rw [h2, List.drop_left' (by rw [List.length_cons, List.length_replicate])]
  refine ⟨w', _, hw', ho, ?_, ?_⟩
  · have hg : calculate_ecc (make_ecc_tables t) (List.replicate 512 0) (List.replicate 16 0)
        = zero_page_ecc := calculate_ecc_zero_page_full t ht
    simp only [hblock, hg, zero_page_ecc, List.drop_succ_cons, List.drop_zero]
  · simp only [hblock, List.drop_succ_cons, List.drop_zero]

theorem read_step_buf (buf input : List Nat) (len total pos cnt : Nat) (hbuf : buf.length = len)
    (htot : total ≤ len) (hcnt : cnt ≤ len - total) (hin : pos + (len - total) ≤ input.length) :
    ((input.drop pos).take cnt).length = cnt ∧
    (store_at buf total ((input.drop pos).take cnt)).length = len ∧
    (store_at buf total ((input.drop pos).take cnt)).take (total + cnt) ++
        (input.drop (pos + cnt)).take (len - (total + cnt)) =
      buf.take total ++ (input.drop pos).take (len - total) := by
  have hc : ((input.drop pos).take cnt).length = cnt := by
    rw [List.length_take, List.length_drop]; omega
  refine ⟨hc, ?_, ?_⟩
  · simp only [store_at, List.length_append, List.length_take, List.length_drop, hc, hbuf]
    omega
  · have h1 : (store_at buf total ((input.drop pos).take cnt)).take (total + cnt) =
        buf.take total ++ (input.drop pos).take cnt := by
      simp only [store_at, hc]
      rw [List.take_append_of_le_length (by simp [hc, hbuf]; omega)]
      rw [List.take_of_length_le (by simp [hc, hbuf])]
    rw [h1, List.append_assoc]
    rw [show len - (total + cnt) = (len - total) - cnt by omega]
    rw [show List.drop (pos + cnt) input = List.drop cnt (List.drop pos input) by
      rw [List.drop_drop, Nat.add_comm]]
    rw [take_append_take_drop _ _ _ hcnt]

theorem read_file_loop_sound : ∀ (fuel : Nat) (w : World) (buf : List Nat) (len total_read : Nat)
    (r : Nat) (buf' : List Nat) (w' : World),
    read_file_loop fuel w buf len total_read = some (r, buf', w') →
    total_read ≤ len → buf.length = len → w.in_pos + (len - total_read) ≤ w.input.length →
    read_outcome w buf len total_read r buf' w' := by
  intro fuel
  induction fuel with
  | zero => intro w buf len total_read r buf' w' h; simp [read_file_loop] at h
  | succ fuel ih =>
    intro w buf len total_read r buf' w' h htot hbuf hin
    rw [read_file_loop] at h
    by_cases hdone : total_read = len
    · rw [if_pos hdone] at h
      simp only [Option.some.injEq, Prod.mk.injEq] at h
      obtain ⟨rfl, rfl, rfl⟩ := h
      subst hdone
      refine ⟨rfl, rfl, rfl, rfl, rfl, Or.inl ⟨rfl, ?_, by simp⟩⟩
      simp [← hbuf]
    · rw [if_neg hdone] at h
      cases hs : w.read_script with
      | nil =>
        simp only [sys_read, hs] at h
        obtain ⟨hc, hlen, hb⟩ := read_step_buf buf w.input len total_read w.in_pos
          (len - total_read) hbuf htot (Nat.le_refl _) hin
        rw [hc] at h
        obtain ⟨h1, h2, h3, h4, h5, h6⟩ := ih _ _ _ _ _ _ _ h (by omega) hlen
          (by simp only []; omega)
        refine ⟨h1, h2, h3, h4, h5, ?_⟩
        rcases h6 with ⟨hr, hbuf', hp⟩ | ⟨hr, hp1, hp2, pre, hpre, hne⟩
        · refine Or.inl ⟨hr, ?_, ?_⟩
          · rw [hbuf']; exact hb
          · rw [hp]; simp only []; omega
        · simp at hpre
      | cons e rest =>
        cases e with
        | eintr =>
          simp only [sys_read, hs] at h
          rw [show (!true) = false from rfl] at h
          simp only [Bool.false_eq_true, if_false] at h
          obtain ⟨h1, h2, h3, h4, h5, h6⟩ := ih _ _ _ _ _ _ _ h htot hbuf hin
          refine ⟨h1, h2, h3, h4, h5, ?_⟩
          rcases h6 with h6 | ⟨hr, hp1, hp2, pre, hpre, hne⟩
          · exact Or.inl h6
          · refine Or.inr ⟨hr, hp1, hp2, CallEvent.eintr :: pre, ?_, ?_⟩
            · rw [hs]
              exact congrArg (List.cons _) hpre
            · simp [hne]
        | error =>
          simp only [sys_read, hs] at h
          rw [show (!false) = true from rfl] at h
          simp only [if_true, Option.some.injEq, Prod.mk.injEq] at h
          obtain ⟨rfl, rfl, rfl⟩ := h
          have hlt : total_read < len := lt_of_le_of_ne htot hdone
          exact ⟨rfl, rfl, rfl, rfl, rfl,
            Or.inr ⟨rfl, Nat.le_refl _, by simp only []; omega, [], hs, by simp⟩⟩
        | short n =>
          simp only [sys_read, hs] at h
          obtain ⟨hc, hlen, hb⟩ := read_step_buf buf w.input len total_read w.in_pos
            (min n (len - total_read)) hbuf htot (Nat.min_le_right _ _) hin
          rw [hc] at h
          have hcle : min n (len - total_read) ≤ len - total_read := Nat.min_le_right _ _
          obtain ⟨h1, h2, h3, h4, h5, h6⟩ := ih _ _ _ _ _ _ _ h (by omega) hlen
            (by simp only []; omega)
          refine ⟨h1, h2, h3, h4, h5, ?_⟩
          rcases h6 with ⟨hr, hbuf', hp⟩ | ⟨hr, hp1, hp2, pre, hpre, hne⟩
          · refine Or.inl ⟨hr, ?_, ?_⟩
            · rw [hbuf']; exact hb
            · rw [hp]; simp only []; omega
          · refine Or.inr ⟨hr, ?_, ?_, CallEvent.short n :: pre, ?_, ?_⟩
            · simp only [] at hp1; omega
            · simp only [] at hp2; omega
            · rw [hs]
              exact congrArg (List.cons _) hpre
            · simp [hne]

theorem write_file_loop_sound : ∀ (fuel : Nat) (w : World) (buf : List Nat)
    (len total_written : Nat) (r : Nat) (w' : World),
    write_file_loop fuel w buf len total_written = some (r, w') →
    total_written ≤ len → len ≤ buf.length →
    write_outcome w buf len total_written r w' := by
  intro fuel
  induction fuel with
  | zero => intro w buf len total_written r w' h; simp [write_file_loop] at h
  | succ fuel ih =>
    intro w buf len total_written r w' h htot hbuf
    rw [write_file_loop] at h
    by_cases hdone : total_written = len
    · rw [if_pos hdone] at h
      simp only [Option.some.injEq, Prod.mk.injEq] at h
      obtain ⟨rfl, rfl⟩ := h
      subst hdone
      exact ⟨rfl, rfl, rfl, rfl, rfl, Or.inl ⟨rfl, by simp⟩⟩
    · rw [if_neg hdone] at h
      have hlt : total_written < len := lt_of_le_of_ne htot hdone
      have hlen : ((buf.drop total_written).take (len - total_written)).length
          = len - total_written := by
        rw [List.length_take, List.length_drop]; omega
      cases hs : w.write_script with
      | nil =>
        simp only [sys_write, hs, hlen] at h
        rw [Nat.add_sub_cancel' htot] at h
        obtain ⟨h1, h2, h3, h4, h5, h6⟩ := ih _ _ _ _ _ _ h (Nat.le_refl _) hbuf
        refine ⟨h1, h2, h3, h4, h5, ?_⟩
        rcases h6 with ⟨hr, ho⟩ | ⟨hr, m, hm, _⟩
        · refine Or.inl ⟨hr, ?_⟩
          rw [ho]
          simp
        · omega
      | cons e rest =>
        cases e with
        | eintr =>
          simp only [sys_write, hs] at h
          rw [show (!true) = false from rfl] at h
          simp only [Bool.false_eq_true, if_false] at h
          obtain ⟨h1, h2, h3, h4, h5, h6⟩ := ih _ _ _ _ _ _ h htot hbuf
          refine ⟨h1, h2, h3, h4, h5, ?_⟩
          rcases h6 with h6 | ⟨hr, m, hm, ho, pre, hpre, hne⟩
          · exact Or.inl h6
          · refine Or.inr ⟨hr, m, hm, ho, CallEvent.eintr :: pre, ?_, by simp [hne]⟩
            rw [hs]
            exact congrArg (List.cons _) hpre
        | error =>
          simp only [sys_write, hs] at h
          rw [show (!false) = true from rfl] at h
          simp only [if_true, Option.some.injEq, Prod.mk.injEq] at h
          obtain ⟨rfl, rfl⟩ := h
          exact ⟨rfl, rfl, rfl, rfl, rfl,
            Or.inr ⟨rfl, 0, by omega, by simp, [], hs, by simp⟩⟩
        | short n =>
          have hc : (((buf.drop total_written).take (len - total_written)).take n).length
              = min n (len - total_written) := by
            rw [List.length_take, hlen]
          have hcle : min n (len - total_written) ≤ len - total_written := Nat.min_le_right _ _
          have hchunk : ((buf.drop total_written).take (len - total_written)).take n =
              (buf.drop total_written).take (min n (len - total_written)) := by
            rw [List.take_take]
          simp only [sys_write, hs, hc] at h
          obtain ⟨h1, h2, h3, h4, h5, h6⟩ := ih _ _ _ _ _ _ h (by omega) hbuf
          have hdd : List.drop (total_written + min n (len - total_written)) buf =
              List.drop (min n (len - total_written)) (List.drop total_written buf) := by
            rw [List.drop_drop, Nat.add_comm]
          refine ⟨h1, h2, h3, h4, h5, ?_⟩
          rcases h6 with ⟨hr, ho⟩ | ⟨hr, m, hm, ho, pre, hpre, hne⟩
          · refine Or.inl ⟨hr, ?_⟩
            rw [ho]
            simp only []
            rw [List.append_assoc, hchunk, hdd,
              show len - (total_written + min n (len - total_written))
                = (len - total_written) - min n (len - total_written) by omega,
              take_append_take_drop _ _ _ hcle]
          · refine Or.inr ⟨hr, min n (len - total_written) + m, by omega, ?_,
              CallEvent.short n :: pre, ?_, by simp [hne]⟩
            · rw [ho]
              simp only []
              rw [List.append_assoc, hchunk, hdd, ← List.take_add]
            · rw [hs]
              exact congrArg (List.cons _) hpre

theorem page_loop_add (fuel : Nat) (t : Tables) : ∀ (n m : Nat) (w : World) (data : List Nat),
    page_loop fuel t (n + m) w data =
      match page_loop fuel t n w data with
      | none => none
      | some (r, data', w') =>
        if r ≠ 0 then some (1, data', w') else page_loop fuel t m w' data' := by
  intro n
  induction n with
  | zero => intro m w data; simp [page_loop]
  | succ n ih =>
    intro m w data
    rw [show n + 1 + m = (n + m) + 1 by omega]
    simp only [page_loop]
    cases hc : convert_page fuel t w data with
    | none => rfl
    | some res =>
      obtain ⟨r, d1, w1⟩ := res
      by_cases hr : r = 0
      · subst hr
        simp only [ne_eq, not_true_eq_false, if_false]
        exact ih m w1 d1
      · simp [hr]

theorem block_loop_eq_page_loop (fuel : Nat) (t : Tables) : ∀ (n : Nat) (w : World)
    (data : List Nat),
    block_loop fuel t n w data = page_loop fuel t (PAGES_PER_BLOCK * n) w data := by
  intro n
  induction n with
  | zero => intro w data; rfl
  | succ n ih =>
    intro w data
    rw [show PAGES_PER_BLOCK * (n + 1) = PAGES_PER_BLOCK + PAGES_PER_BLOCK * n by
      rw [Nat.mul_succ]; omega]
    rw [page_loop_add, block_loop]
    cases page_loop fuel t PAGES_PER_BLOCK w data with
    | none => rfl
    | some res =>
      obtain ⟨r, d1, w1⟩ := res
      simp only [ih]

theorem page_loop_abort (fuel : Nat) (t : Tables) (k m : Nat) (w : World) (data : List Nat)
    (dk : List Nat) (wk : World) (r : Nat) (d' : List Nat) (wf : World)
    (hrun : page_loop fuel t k w data = some (0, dk, wk))
    (hfail : convert_page fuel t wk dk = some (r, d', wf)) (hr : r ≠ 0) :
    page_loop fuel t (k + (m + 1)) w data = some (1, d', wf) := by
  rw [page_loop_add, hrun]
  simp only [ne_eq, not_true_eq_false, if_false, page_loop, hfail, hr, not_false_eq_true, if_true]

theorem convert_page_sound (fuel : Nat) (t : Tables) (w : World) (data : List Nat)
    (d' : List Nat) (w' : World)
    (h : convert_page fuel t w data = some (0, d', w'))
    (hdata : data.length = BYTES_PER_PAGE) (hin : w.in_pos + BYTES_PER_PAGE ≤ w.input.length) :
    w'.input = w.input ∧ w'.seek_script = w.seek_script ∧
    w'.in_pos = w.in_pos + BYTES_PER_PAGE ∧ d' = page_at w.input w.in_pos ∧
    w'.output = w.output ++ record_at t w.input w.in_pos := by
  unfold convert_page at h
  cases hr : read_file fuel w data BYTES_PER_PAGE with
  | none => simp [hr] at h
  | some res =>
    obtain ⟨r1, d1, w1⟩ := res
    simp only [hr] at h
    by_cases hr1 : r1 = 0
    swap
    · simp [hr1] at h
    subst hr1
    simp only [ne_eq, not_true_eq_false, if_false] at h
    obtain ⟨i1, o1, _, _, s1, hro⟩ := read_file_loop_sound fuel w data BYTES_PER_PAGE 0 0 d1 w1 hr
      (Nat.zero_le _) hdata (by simpa using hin)
    rcases hro with ⟨_, hd1, hp1⟩ | ⟨hbad, _⟩
    swap
    · omega
    have hpage : d1 = page_at w.input w.in_pos := by
      rw [hd1]; simp [page_at]
    have hplen : d1.length = BYTES_PER_PAGE := by
      rw [hpage]; exact page_at_length _ _ hin
    cases hw : write_file fuel w1 d1 BYTES_PER_PAGE with
    | none => simp [hw] at h
    | some res2 =>
      obtain ⟨r2, w2⟩ := res2
      simp only [hw] at h
      by_cases hr2 : r2 = 0
      swap
      · simp [hr2] at h
      subst hr2
      simp only [ne_eq, not_true_eq_false, if_false] at h
      obtain ⟨i2, p2, _, _, s2, hwo⟩ := write_file_loop_sound fuel w1 d1 BYTES_PER_PAGE 0 0 w2 hw
        (Nat.zero_le _) (by omega)
      rcases hwo with ⟨_, ho2⟩ | ⟨hbad, _⟩
      swap
      · omega
      cases hw3 : write_file fuel w2 (calculate_ecc t d1 (List.replicate ECC_SIZE 0)) ECC_SIZE with
      | none => simp [hw3] at h
      | some res3 =>
        obtain ⟨r3, w3⟩ := res3
        simp only [hw3] at h
        by_cases hr3 : r3 = 0
        swap
        · simp [hr3] at h
        subst hr3
        simp only [ne_eq, not_true_eq_false, if_false, Option.some.injEq, Prod.mk.injEq,
          true_and] at h
        obtain ⟨rfl, rfl⟩ := h
        have helen : (calculate_ecc t d1 (List.replicate ECC_SIZE 0)).length = ECC_SIZE := by
          rw [calculate_ecc_length, List.length_replicate]
        obtain ⟨i3, p3, _, _, s3, hwo3⟩ := write_file_loop_sound fuel w2 _ ECC_SIZE 0 0 w3 hw3
          (Nat.zero_le _) (by omega)
        rcases hwo3 with ⟨_, ho3⟩ | ⟨hbad, _⟩
        swap
        · omega
        refine ⟨by rw [i3, i2, i1], by rw [s3, s2, s1], by rw [p3, p2, hp1]; simp, hpage, ?_⟩
        rw [ho3, ho2, o1, List.append_assoc]
        unfold record_at
        rw [List.drop_zero, Nat.sub_zero, List.take_of_length_le (by omega), List.drop_zero,
          Nat.sub_zero, List.take_of_length_le (by omega), hpage]

theorem page_loop_sound (fuel : Nat) (t : Tables) : ∀ (k : Nat) (w : World) (data : List Nat)
    (dk : List Nat) (wk : World),
    page_loop fuel t k w data = some (0, dk, wk) →
    data.length = BYTES_PER_PAGE → w.in_pos + BYTES_PER_PAGE * k ≤ w.input.length →
    wk.input = w.input ∧ wk.seek_script = w.seek_script ∧
    wk.in_pos = w.in_pos + BYTES_PER_PAGE * k ∧ dk.length = BYTES_PER_PAGE ∧
    wk.output = w.output ++ records_from t w.input w.in_pos k := by
  intro k
  induction k with
  | zero =>
    intro w data dk wk h hdata _
    simp only [page_loop, Option.some.injEq, Prod.mk.injEq, true_and] at h
    obtain ⟨rfl, rfl⟩ := h
    exact ⟨rfl, rfl, by simp, hdata, by simp [records_from]⟩
  | succ k ih =>
    intro w data dk wk h hdata hin
    rw [Nat.mul_succ] at hin
    rw [page_loop] at h
    cases hc : convert_page fuel t w data with
    | none => simp [hc] at h
    | some res =>
      obtain ⟨r, d1, w1⟩ := res
      simp only [hc] at h
      by_cases hr : r = 0
      swap
      · simp [hr] at h
      subst hr
      simp only [ne_eq, not_true_eq_false, if_false] at h
      obtain ⟨i1, s1, p1, hd1, o1⟩ := convert_page_sound fuel t w data d1 w1 hc hdata (by omega)
      obtain ⟨i2, s2, p2, hd2, o2⟩ := ih w1 d1 dk wk h
        (by rw [hd1]; exact page_at_length _ _ (by omega)) (by rw [i1, p1]; omega)
      refine ⟨by rw [i2, i1], by rw [s2, s1], by rw [p2, p1, Nat.mul_succ]; omega, hd2, ?_⟩
      rw [o2, o1, i1, p1, List.append_assoc]
      rfl

theorem get_file_size_snd (w : World) (h : true ∉ w.seek_script) :
    (get_file_size w).1 = w.input.length ∧ (get_file_size w).2.input = w.input ∧
    (get_file_size w).2.in_pos = 0 ∧ (get_file_size w).2.output = w.output := by
  obtain ⟨w', hw', hf, hp, ho⟩ := get_file_size_ok w h
  rw [hw']
  exact ⟨rfl, hf.1, hp, ho⟩

theorem convert_memcard_eq_page_loop (fuel : Nat) (t : Tables) (w : World)
    (hsize : w.input.length = EXPECTED_NON_ECC_MEMCARD_SIZE) (hseek : true ∉ w.seek_script) :
    convert_memcard fuel t w =
      (page_loop fuel t (PAGES_PER_BLOCK * BLOCKS_PER_CARD) (get_file_size w).2
        (List.replicate BYTES_PER_PAGE 0)).map (fun res => (res.1, res.2.2)) := by
  have h1 := (get_file_size_snd w hseek).1
  unfold convert_memcard
  rw [show get_file_size w = ((get_file_size w).1, (get_file_size w).2) from rfl]
  simp only [h1, hsize, ne_eq, not_true_eq_false, if_false, block_loop_eq_page_loop]
  cases page_loop fuel t (PAGES_PER_BLOCK * BLOCKS_PER_CARD) (get_file_size w).2
    (List.replicate BYTES_PER_PAGE 0) with
  | none => rfl
  | some res => rfl

theorem at_page_page_loop (fuel : Nat) (t : Tables) (w : World) (b p : Nat) (dk : List Nat)
    (wk : World) (h : at_page fuel t w b p dk wk) :
    page_loop fuel t (PAGES_PER_BLOCK * b + p) (get_file_size w).2
      (List.replicate BYTES_PER_PAGE 0) = some (0, dk, wk) := by
  obtain ⟨db, wb, hb, hp⟩ := h
  rw [block_loop_eq_page_loop] at hb
  rw [page_loop_add, hb]
  simpa using hp

theorem convert_memcard_abort_at (fuel : Nat) (t : Tables) (w : World)
    (hsize : w.input.length = EXPECTED_NON_ECC_MEMCARD_SIZE) (hseek : true ∉ w.seek_script)
    (b p : Nat) (hb : b < BLOCKS_PER_CARD) (hp : p < PAGES_PER_BLOCK)
    (dk : List Nat) (wk : World) (hat : at_page fuel t w b p dk wk)
    (r : Nat) (d' : List Nat) (wf : World)
    (hfail : convert_page fuel t wk dk = some (r, d', wf)) (hr : r ≠ 0) :
    convert_memcard fuel t w = some (1, wf) := by
  have hrun := at_page_page_loop fuel t w b p dk wk hat
  obtain ⟨m, hm⟩ : ∃ m, PAGES_PER_BLOCK * BLOCKS_PER_CARD = PAGES_PER_BLOCK * b + p + (m + 1) := by
    refine ⟨PAGES_PER_BLOCK * BLOCKS_PER_CARD - (PAGES_PER_BLOCK * b + p) - 1, ?_⟩
    simp only [PAGES_PER_BLOCK, BLOCKS_PER_CARD] at hb hp ⊢
    omega
  rw [convert_memcard_eq_page_loop fuel t w hsize hseek, hm,
    page_loop_abort fuel t _ m _ _ dk wk r d' wf hrun hfail hr]
  rfl

theorem at_page_sound (fuel : Nat) (t : Tables) (w : World)
    (hsize : w.input.length = EXPECTED_NON_ECC_MEMCARD_SIZE) (hseek : true ∉ w.seek_script)
    (b p : Nat) (hb : b < BLOCKS_PER_CARD) (hp : p < PAGES_PER_BLOCK)
    (dk : List Nat) (wk : World) (hat : at_page fuel t w b p dk wk) :
    wk.input = w.input ∧ wk.in_pos = BYTES_PER_PAGE * (PAGES_PER_BLOCK * b + p) ∧
    dk.length = BYTES_PER_PAGE ∧
    wk.output = w.output ++ records_from t w.input 0 (PAGES_PER_BLOCK * b + p) := by
  have hrun := at_page_page_loop fuel t w b p dk wk hat
  obtain ⟨_, g1, g2, g3⟩ := get_file_size_snd w hseek
  obtain ⟨i1, _, p1, hd, o1⟩ := page_loop_sound fuel t _ _ _ dk wk hrun
    (List.length_replicate _ _) (by
      rw [g1, g2, hsize]
      simp only [PAGES_PER_BLOCK, BLOCKS_PER_CARD, BYTES_PER_PAGE,
        EXPECTED_NON_ECC_MEMCARD_SIZE] at hb hp ⊢
      omega)
  rw [g1, g2] at o1
  rw [g2] at p1
  rw [g3] at o1
  exact ⟨i1.trans g1, by rw [p1]; omega, hd, o1⟩

theorem convert_page_read_fail (fuel : Nat) (t : Tables) (w : World) (data : List Nat)
    (r : Nat) (d' : List Nat) (wf : World)
    (h : read_file fuel w data BYTES_PER_PAGE = some (r, d', wf)) (hr : r ≠ 0) :
    convert_page fuel t w data = some (1, d', wf) := by
  simp [convert_page, h, hr]

theorem convert_page_data_write_fail (fuel : Nat) (t : Tables) (w : World) (data : List Nat)
    (d' : List Nat) (wr : World) (r : Nat) (wf : World)
    (h : read_file fuel w data BYTES_PER_PAGE = some (0, d', wr))
    (hw : write_file fuel wr d' BYTES_PER_PAGE = some (r, wf)) (hr : r ≠ 0) :
    convert_page fuel t w data = some (1, d', wf) := by
  simp [convert_page, h, hw, hr]

theorem convert_page_ecc_write_fail (fuel : Nat) (t : Tables) (w : World) (data : List Nat)
    (d' : List Nat) (wr wd : World) (r : Nat) (wf : World)
    (h : read_file fuel w data BYTES_PER_PAGE = some (0, d', wr))
    (hw : write_file fuel wr d' BYTES_PER_PAGE = some (0, wd))
    (he : write_file fuel wd (calculate_ecc t d' (List.replicate ECC_SIZE 0)) ECC_SIZE
      = some (r, wf)) (hr : r ≠ 0) :
    convert_page fuel t w data = some (1, d', wf) := by
  simp [convert_page, h, hw, he, hr]

/-- C17, amended: for a correctly sized input whose size check has passed, with the conversion
about to start page `k = 16 * b + p`: when the page read, the data write or the ECC write of page
`k` returns non-zero, `convert_memcard` returns 1 in the world the failing call left (no call
follows it, and the last call issued is the one that failed), and the output is what was written
before: records `0 .. k-1`, followed, for a failed write, by the part of the record of page `k`
that the earlier calls of that page had transferred. -/
theorem convert_memcard_aborts (fuel : Nat) (t : Tables) (w : World)
    (hsize : w.input.length = 8388608) (hseek : true ∉ w.seek_script)
    (b p : Nat) (hb : b < 1024) (hp : p < 16) (dk : List Nat) (wk : World)
    (hat : at_page fuel t w b p dk wk) :
    (∀ r d' wf, read_file fuel wk dk 512 = some (r, d', wf) → r ≠ 0 →
      convert_memcard fuel t w = some (1, wf) ∧
      wf.output = w.output ++ records_from t w.input 0 (16 * b + p) ∧
      wf.writes = wk.writes ∧
      ∃ pre, wk.read_script = pre ++ CallEvent.error :: wf.read_script ∧
        CallEvent.error ∉ pre) ∧
    (∀ d' wr r wf, read_file fuel wk dk 512 = some (0, d', wr) →
      write_file fuel wr d' 512 = some (r, wf) → r ≠ 0 →
      convert_memcard fuel t w = some (1, wf) ∧
      (∃ m, m < 512 ∧ wf.output = w.output ++ records_from t w.input 0 (16 * b + p) ++
        (page_at w.input (512 * (16 * b + p))).take m) ∧
      wf.reads = wr.reads ∧
      ∃ pre, wr.write_script = pre ++ CallEvent.error :: wf.write_script ∧
        CallEvent.error ∉ pre) ∧
    (∀ d' wr wd r wf, read_file fuel wk dk 512 = some (0, d', wr) →
      write_file fuel wr d' 512 = some (0, wd) →
      write_file fuel wd (calculate_ecc t d' (List.replicate 16 0)) 16 = some (r, wf) → r ≠ 0 →
      convert_memcard fuel t w = some (1, wf) ∧
      (∃ m, m < 16 ∧ wf.output = w.output ++ records_from t w.input 0 (16 * b + p) ++
        page_at w.input (512 * (16 * b + p)) ++
        (calculate_ecc t (page_at w.input (512 * (16 * b + p))) (List.replicate 16 0)).take m) ∧
      wf.reads = wd.reads ∧
      ∃ pre, wd.write_script = pre ++ CallEvent.error :: wf.write_script ∧
        CallEvent.error ∉ pre) := by
  obtain ⟨hi, hpos, hdk, hout⟩ := at_page_sound fuel t w hsize hseek b p hb hp dk wk hat
  have hk : 16 * b + p < 16384 := by omega
  have hin : wk.in_pos + BYTES_PER_PAGE ≤ wk.input.length := by
    rw [hi, hpos, hsize]
    simp only [BYTES_PER_PAGE, PAGES_PER_BLOCK]
    omega
  have hpos' : wk.in_pos = 512 * (16 * b + p) := hpos
  refine ⟨fun r d' wf hread hr => ?_, fun d' wr r wf hread hwrite hr => ?_,
    fun d' wr wd r wf hread hwrite hecc hr => ?_⟩
  · obtain ⟨_, o1, _, w1, _, hro⟩ := read_file_loop_sound fuel wk dk BYTES_PER_PAGE 0 r d' wf
      hread (Nat.zero_le _) hdk (by simpa using hin)
    refine ⟨convert_memcard_abort_at fuel t w hsize hseek b p hb hp dk wk hat 1 d' wf
      (convert_page_read_fail fuel t wk dk r d' wf hread hr) (by decide),
      by rw [o1, hout]; rfl, w1, ?_⟩
    rcases hro with ⟨h0, _⟩ | ⟨_, _, _, hpre⟩
    · exact absurd h0 hr
    · exact hpre
  · obtain ⟨i1, o1, _, _, _, hro⟩ := read_file_loop_sound fuel wk dk BYTES_PER_PAGE 0 0 d' wr
      hread (Nat.zero_le _) hdk (by simpa using hin)
    rcases hro with ⟨_, hd', _⟩ | ⟨hbad, _⟩
    swap
    · omega
    have hpage : d' = page_at w.input (512 * (16 * b + p)) := by
      rw [hd', hi, hpos']; simp [page_at]
    have hplen : d'.length = BYTES_PER_PAGE := by
      rw [hd', List.take_zero, List.nil_append, Nat.sub_zero]
      exact page_at_length _ _ hin
    obtain ⟨_, _, _, r2, _, hwo⟩ := write_file_loop_sound fuel wr d' BYTES_PER_PAGE 0 r wf hwrite
      (Nat.zero_le _) (by omega)
    refine ⟨convert_memcard_abort_at fuel t w hsize hseek b p hb hp dk wk hat 1 d' wf
      (convert_page_data_write_fail fuel t wk dk d' wr r wf hread hwrite hr) (by decide), ?_,
      r2, ?_⟩
    · rcases hwo with ⟨h0, _⟩ | ⟨_, m, hm, ho, _⟩
      · exact absurd h0 hr
      · refine ⟨m, by simpa [BYTES_PER_PAGE] using hm, ?_⟩
        rw [ho, o1, hout, List.drop_zero, hpage]
        rfl
    · rcases hwo with ⟨h0, _⟩ | ⟨_, _, _, _, hpre⟩
      · exact absurd h0 hr
      · exact hpre
  · obtain ⟨i1, o1, _, _, _, hro⟩ := read_file_loop_sound fuel wk dk BYTES_PER_PAGE 0 0 d' wr
      hread (Nat.zero_le _) hdk (by simpa using hin)
    rcases hro with ⟨_, hd', _⟩ | ⟨hbad, _⟩
    swap
    · omega
    have hpage : d' = page_at w.input (512 * (16 * b + p)) := by
      rw [hd', hi, hpos']; simp [page_at]
    have hplen : d'.length = BYTES_PER_PAGE := by
      rw [hd', List.take_zero, List.nil_append, Nat.sub_zero]
      exact page_at_length _ _ hin
    obtain ⟨_, _, _, _, _, hwo⟩ := write_file_loop_sound fuel wr d' BYTES_PER_PAGE 0 0 wd hwrite
      (Nat.zero_le _) (by omega)
    rcases hwo with ⟨_, ho2⟩ | ⟨hbad, _⟩
    swap
    · omega
    have helen : (calculate_ecc t d' (List.replicate ECC_SIZE 0)).length = ECC_SIZE := by
      rw [calculate_ecc_length, List.length_replicate]
    obtain ⟨_, _, _, r3, _, hwo3⟩ := write_file_loop_sound fuel wd
      (calculate_ecc t d' (List.replicate ECC_SIZE 0)) ECC_SIZE 0 r wf hecc
      (Nat.zero_le _) (by omega)
    refine ⟨convert_memcard_abort_at fuel t w hsize hseek b p hb hp dk wk hat 1 d' wf
      (convert_page_ecc_write_fail fuel t wk dk d' wr wd r wf hread hwrite hecc hr) (by decide),
      ?_, r3, ?_⟩
    · rcases hwo3 with ⟨h0, _⟩ | ⟨_, m, hm, ho, _⟩
      · exact absurd h0 hr
      · refine ⟨m, by simpa [ECC_SIZE] using hm, ?_⟩
        rw [ho, ho2, o1, hout, List.drop_zero, List.drop_zero, Nat.sub_zero,
          List.take_of_length_le (by omega), hpage]
        rfl
    · rcases hwo3 with ⟨h0, _⟩ | ⟨_, _, _, _, hpre⟩
      · exact absurd h0 hr
      · exact hpre

theorem write_file_short_then_error (fuel : Nat) (w : World) (buf : List Nat) (len n : Nat)
    (rest : List CallEvent) (hs : w.write_script = CallEvent.short n :: CallEvent.error :: rest)
    (hn : n < len) (hlen : len ≤ buf.length) :
    write_file (fuel + 2) w buf len =
      some (1, { w with output := w.output ++ buf.take n, write_script := rest,
                        writes := w.writes + 1 + 1 }) := by
  have hc : ((List.take len buf).take n).length = n := by
    rw [List.length_take, List.length_take]; omega
  have hne : ¬ (0 = len) := by omega
  have hne2 : ¬ (n = len) := by omega
  have htt : (List.take len buf).take n = buf.take n := by
    rw [List.take_take, Nat.min_eq_left (by omega)]
  have hc2 : (buf.take n).length = n := by
    rw [List.length_take]; omega
  simp only [write_file, write_file_loop, if_neg hne, sys_write, hs, List.drop_zero, Nat.sub_zero,
    hc, Nat.zero_add, if_neg hne2, htt, hc2, Bool.not_false, if_true]

/-- C17 as stated fails: in `partial_write_world` the size check passes, page 0 is read, its data
write returns 1 after 100 bytes have been transferred, and `convert_memcard` returns 1 with those
100 bytes in the output, which is not the empty sequence of complete records before page 0. -/
theorem partial_write_remains :
    ∃ d' wr wf,
      read_file 5 (get_file_size partial_write_world).2 (List.replicate 512 0) 512
        = some (0, d', wr) ∧
      write_file 5 wr d' 512 = some (1, wf) ∧
      convert_memcard 5 ecc_tables partial_write_world = some (1, wf) ∧
      wf.output = List.replicate 100 0 ∧
      wf.output ≠ partial_write_world.output ++
        records_from ecc_tables partial_write_world.input 0 0 := by
  have hsize : partial_write_world.input.length = EXPECTED_NON_ECC_MEMCARD_SIZE :=
    List.length_replicate 8388608 0
  have hseek : true ∉ partial_write_world.seek_script := by decide
  obtain ⟨_, g1, g2, g3⟩ := get_file_size_snd partial_write_world hseek
  have hrs : (get_file_size partial_write_world).2.read_script = [] := rfl
  have hws : (get_file_size partial_write_world).2.write_script
      = [CallEvent.short 100, CallEvent.error] := rfl
  have hin : (get_file_size partial_write_world).2.in_pos + (512 - 0)
      ≤ (get_file_size partial_write_world).2.input.length := by
    rw [g1, g2, hsize]; decide
  obtain ⟨wr, hread, _, _, _, _⟩ := read_file_loop_ok 5 (get_file_size partial_write_world).2
    (List.replicate 512 0) 512 0 (by rw [hrs]; simp) (by rw [hrs]; decide) (Nat.zero_le _)
    (List.length_replicate _ _) hin
  obtain ⟨_, o1, ws1, _, _, _⟩ := read_file_loop_sound 5 _ _ 512 0 _ _ _ hread (Nat.zero_le _)
    (List.length_replicate _ _) hin
  have hpage : List.take 0 (List.replicate 512 0) ++
      List.take (512 - 0) (List.drop (get_file_size partial_write_world).2.in_pos
        (get_file_size partial_write_world).2.input) = List.replicate 512 0 := by
    rw [g1, g2]
    exact page_at_replicate 8388608 0 (by decide)
  rw [hpage] at hread
  have hwrite := write_file_short_then_error 3 wr (List.replicate 512 0) 512 100 []
    (by rw [ws1, hws]) (by decide) (by rw [List.length_replicate])
  refine ⟨_, wr, _, hread, hwrite, ?_, ?_, ?_⟩
  · exact convert_memcard_abort_at 5 ecc_tables partial_write_world hsize hseek 0 0 (by decide)
      (by decide) _ _ ⟨_, _, rfl, rfl⟩ 1 _ _
      (convert_page_data_write_fail 5 ecc_tables _ _ _ wr 1 _ hread hwrite (by decide))
      (by decide)
  · show wr.output ++ List.take 100 (List.replicate 512 0) = List.replicate 100 0
    rw [o1, g3, List.take_replicate]
    rfl
  · show wr.output ++ List.take 100 (List.replicate 512 0) ≠ _
    rw [o1, g3, List.take_replicate]
    decide

theorem is_page_replicate : is_page (List.replicate BYTES_PER_PAGE 0) :=
  ⟨List.length_replicate _ _, fun b hb => by rw [List.eq_of_mem_replicate hb]; decide⟩

theorem is_page_one_bit_page : is_page one_bit_page := by
  refine ⟨by rw [one_bit_page, List.length_cons, List.length_replicate]; rfl, fun b hb => ?_⟩
  rw [one_bit_page, List.mem_cons] at hb
  rcases hb with rfl | hb
  · decide
  · rw [List.eq_of_mem_replicate hb]; decide

theorem convert_zero_image_witness :
    ∃ w' out, convert_memcard 6 (make_ecc_tables initial_tables) example_world = some (0, w') ∧
      w'.output = example_world.output ++ out ∧ out.length = 8650752 ∧
      ∀ k, k < 16384 →
        (out.drop (528 * k)).take 528 =
          List.replicate 512 0 ++
            ([0x77, 0x7F, 0x7F, 0x77, 0x7F, 0x7F, 0x77, 0x7F, 0x7F, 0x77, 0x7F, 0x7F] ++
              List.replicate 4 0) :=
  convert_zero_image 6 initial_tables ⟨List.length_replicate 256 0, List.length_replicate 256 0⟩
    example_world rfl (by decide) (by decide)

theorem convert_one_ff_image_witness :
    ∃ w' out, convert_memcard 6 (make_ecc_tables initial_tables) ff_world = some (0, w') ∧
      w'.output = ff_world.output ++ out ∧
      ((out.drop 512).take 16).drop 3 =
        (calculate_ecc (make_ecc_tables initial_tables) (List.replicate 512 0)
          (List.replicate 16 0)).drop 3 ∧
      ((out.drop 512).take 16).drop 3 =
        [0x77, 0x7F, 0x7F, 0x77, 0x7F, 0x7F, 0x77, 0x7F, 0x7F, 0, 0, 0, 0] :=
  convert_one_ff_image 6 initial_tables ⟨List.length_replicate 256 0, List.length_replicate 256 0⟩
    ff_world rfl (by decide) (by decide)

theorem line_parity_by_count_witness :
    (odd_bytes (make_ecc_tables initial_tables) one_bit_page 0 % 2 = 0 →
      (calculate_ecc (make_ecc_tables initial_tables) one_bit_page
        (List.replicate ECC_SIZE 0)).getD (3 * 0 + 1) 0 = 0x7F ∧
      (calculate_ecc (make_ecc_tables initial_tables) one_bit_page
        (List.replicate ECC_SIZE 0)).getD (3 * 0 + 2) 0 = 0x7F) ∧
    (odd_bytes (make_ecc_tables initial_tables) one_bit_page 0 % 2 = 1 →
      (calculate_ecc (make_ecc_tables initial_tables) one_bit_page
        (List.replicate ECC_SIZE 0)).getD (3 * 0 + 1) 0 = 0 ∧
      (calculate_ecc (make_ecc_tables initial_tables) one_bit_page
        (List.replicate ECC_SIZE 0)).getD (3 * 0 + 2) 0 = 0x7F ^^^ 0) ∧
    odd_bytes (make_ecc_tables initial_tables) one_bit_page 0 % 2 =
      quarter_bits one_bit_page 0 % 2 :=
  line_parity_by_count initial_tables ⟨List.length_replicate 256 0, List.length_replicate 256 0⟩
    one_bit_page (List.replicate ECC_SIZE 0) is_page_one_bit_page (List.length_replicate _ _) 0
    (by decide)

theorem single_bit_error_detected_witness :
    (calculate_ecc (make_ecc_tables initial_tables) (flip_bit one_bit_page 300 5)
        (List.replicate ECC_SIZE 0)).take 12 ≠
      (calculate_ecc (make_ecc_tables initial_tables) one_bit_page
        (List.replicate ECC_SIZE 0)).take 12 :=
  single_bit_error_detected initial_tables
    ⟨List.length_replicate 256 0, List.length_replicate 256 0⟩ one_bit_page
    (List.replicate ECC_SIZE 0) is_page_one_bit_page (List.length_replicate _ _) 300 5
    (by decide) (by decide)

theorem ecc_group_depends_on_quarter_witness :
    (calculate_ecc ecc_tables one_bit_page (List.replicate ECC_SIZE 0)).getD (3 * 2) 0 =
      (calculate_ecc ecc_tables (List.replicate BYTES_PER_PAGE 0)
        (List.replicate ECC_SIZE 7)).getD (3 * 2) 0 ∧
    (calculate_ecc ecc_tables one_bit_page (List.replicate ECC_SIZE 0)).getD (3 * 2 + 1) 0 =
      (calculate_ecc ecc_tables (List.replicate BYTES_PER_PAGE 0)
        (List.replicate ECC_SIZE 7)).getD (3 * 2 + 1) 0 ∧
    (calculate_ecc ecc_tables one_bit_page (List.replicate ECC_SIZE 0)).getD (3 * 2 + 2) 0 =
      (calculate_ecc ecc_tables (List.replicate BYTES_PER_PAGE 0)
        (List.replicate ECC_SIZE 7)).getD (3 * 2 + 2) 0 :=
  ecc_group_depends_on_quarter ecc_tables one_bit_page (List.replicate BYTES_PER_PAGE 0)
    (List.replicate ECC_SIZE 0) (List.replicate ECC_SIZE 7) (List.length_replicate _ _)
    (List.length_replicate _ _) 2 (by decide) (by decide!)

theorem convert_memcard_aborts_witness :
    (∀ r d' wf, read_file 5 (get_file_size partial_write_world).2
        (List.replicate BYTES_PER_PAGE 0) 512 = some (r, d', wf) → r ≠ 0 →
      convert_memcard 5 ecc_tables partial_write_world = some (1, wf) ∧
      wf.output = partial_write_world.output ++
        records_from ecc_tables partial_write_world.input 0 (16 * 0 + 0) ∧
      wf.writes = (get_file_size partial_write_world).2.writes ∧
      ∃ pre, (get_file_size partial_write_world).2.read_script
          = pre ++ CallEvent.error :: wf.read_script ∧
        CallEvent.error ∉ pre) ∧
    (∀ d' wr r wf, read_file 5 (get_file_size partial_write_world).2
        (List.replicate BYTES_PER_PAGE 0) 512 = some (0, d', wr) →
      write_file 5 wr d' 512 = some (r, wf) → r ≠ 0 →
      convert_memcard 5 ecc_tables partial_write_world = some (1, wf) ∧
      (∃ m, m < 512 ∧ wf.output = partial_write_world.output ++
        records_from ecc_tables partial_write_world.input 0 (16 * 0 + 0) ++
        (page_at partial_write_world.input (512 * (16 * 0 + 0))).take m) ∧
      wf.reads = wr.reads ∧
      ∃ pre, wr.write_script = pre ++ CallEvent.error :: wf.write_script ∧
        CallEvent.error ∉ pre) ∧
    (∀ d' wr wd r wf, read_file 5 (get_file_size partial_write_world).2
        (List.replicate BYTES_PER_PAGE 0) 512 = some (0, d', wr) →
      write_file 5 wr d' 512 = some (0, wd) →
      write_file 5 wd (calculate_ecc ecc_tables d' (List.replicate 16 0)) 16 = some (r, wf) →
      r ≠ 0 →
      convert_memcard 5 ecc_tables partial_write_world = some (1, wf) ∧
      (∃ m, m < 16 ∧ wf.output = partial_write_world.output ++
        records_from ecc_tables partial_write_world.input 0 (16 * 0 + 0) ++
        page_at partial_write_world.input (512 * (16 * 0 + 0)) ++
        (calculate_ecc ecc_tables (page_at partial_write_world.input (512 * (16 * 0 + 0)))
          (List.replicate 16 0)).take m) ∧
      wf.reads = wd.reads ∧
      ∃ pre, wd.write_script = pre ++ CallEvent.error :: wf.write_script ∧
        CallEvent.error ∉ pre) :=
  convert_memcard_aborts 5 ecc_tables partial_write_world (List.length_replicate 8388608 0)
    (by decide) 0 0 (by decide) (by decide) (List.replicate BYTES_PER_PAGE 0)
    (get_file_size partial_write_world).2 ⟨_, _, rfl, rfl⟩

end PS2MCA
